import Mathlib

/-!
Verification development for the test-merging core of the Change-Cover
repository (src/approach/utils/merge_tests.py and
src/approach/utils/test_extractor.py).

Python strings are modelled as lists of characters (`PyStr`); the merger's
line buffer is a list of such strings, exactly as `self.lines` holds the
`splitlines(keepends=True)` decomposition of the target source.  Python's
`ast` parser is not re-implemented: AST nodes are modelled as records of the
attributes the merger reads (names, signature components, 1-based line
numbers), and the effect of re-parsing after a mutation ("refresh the
structural index") is modelled by the line-number arithmetic that such a
re-parse performs, as documented at each operation.
-/

set_option autoImplicit false

namespace MergeSpec

/-- Python strings are modelled as lists of characters. -/
abbrev PyStr := List Char

/-- The newline character. -/
def nlChar : Char := '\n'

/-- The single-quote character used by Python error messages. -/
def squote : Char := '\''

/-- Conversion from Lean string literals to the character-list model. -/
def s2l (s : String) : PyStr := s.data

/-- Characters Python treats as whitespace in str.strip / the regex class \s. -/
def pyIsSpace (c : Char) : Bool :=
  c = ' ' || c = '\t' || c = '\n' || c = '\r' || c = '\x0b' || c = '\x0c'

/-- Python str.lstrip() with no arguments. -/
def lstripWs (s : PyStr) : PyStr := s.dropWhile pyIsSpace

/-- Python str.rstrip() with no arguments. -/
def rstripWs (s : PyStr) : PyStr := (s.reverse.dropWhile pyIsSpace).reverse

/-- Python str.strip() with no arguments. -/
def stripWs (s : PyStr) : PyStr := rstripWs (lstripWs s)

/-- Python str.rstrip with a carriage-return/newline argument. -/
def rstripCrLf (s : PyStr) : PyStr :=
  (s.reverse.dropWhile (fun c => c = '\n' || c = '\r')).reverse

/-- Translation of merge_tests.get_leading_whitespace: the leading run of
whitespace characters of a string. -/
def get_leading_whitespace (s : PyStr) : PyStr := s.takeWhile pyIsSpace

/-- Whether a string ends with a newline character. -/
def endsWithNl (s : PyStr) : Bool :=
  match s.getLast? with
  | some c => c = '\n'
  | none => false

/-- Number of newline characters in a string, i.e. the number of complete
text lines it contributes to a buffer. -/
def countNl (s : PyStr) : Nat := s.countP (fun c => c = '\n')

/-- Python "".join over a list of strings. -/
def joinText (ls : List PyStr) : PyStr := ls.flatten

/-- Worker for splitKeepNl, structurally recursive with an accumulator. -/
def splitKeepNlAux : List Char → List Char → List PyStr
  | [], acc => if acc.isEmpty then [] else [acc.reverse]
  | c :: rest, acc =>
      if c = '\n' then (acc.reverse ++ ['\n']) :: splitKeepNlAux rest []
      else splitKeepNlAux rest (c :: acc)

/-- Python str.splitlines(keepends=True) for texts whose only line break is
the newline character. -/
def splitKeepNl (s : PyStr) : List PyStr := splitKeepNlAux s []

/-- Worker for splitOnNl. -/
def splitOnNlAux : List Char → List Char → List PyStr
  | [], acc => [acc.reverse]
  | c :: rest, acc =>
      if c = '\n' then acc.reverse :: splitOnNlAux rest []
      else splitOnNlAux rest (c :: acc)

/-- Python str.split over the newline character: always one more segment
than there are newlines. -/
def splitOnNl (s : PyStr) : List PyStr := splitOnNlAux s []

/-- Join a list of strings with a given separator, Python sep.join(ls). -/
def sepJoin (sep : PyStr) (ls : List PyStr) : PyStr := (ls.intersperse sep).flatten

/-- Python "\n".join. -/
def joinNl (ls : List PyStr) : PyStr := sepJoin [nlChar] ls

/-- Python str.splitlines() without keepends, for texts whose only line
break is the newline character: a trailing newline yields no empty final
segment. -/
def splitlinesNoKeep (s : PyStr) : List PyStr :=
  if s.isEmpty then []
  else if endsWithNl s then (splitOnNl s).dropLast
  else splitOnNl s

/-- Space or tab, the indentation characters textwrap.dedent reasons about. -/
def isIndentChar (c : Char) : Bool := c = ' ' || c = '\t'

/-- Longest common prefix of two strings, compared character by character. -/
def commonPre : PyStr → PyStr → PyStr
  | a :: as, b :: bs => if a = b then a :: commonPre as bs else []
  | _, _ => []

/-- textwrap.dedent, faithful to CPython for texts whose only line break is
the newline character: lines consisting solely of spaces/tabs are emptied,
the margin is the longest common prefix of the leading space/tab runs of the
remaining content lines, and the margin is removed from every line that
starts with it. -/
def dedentText (t : PyStr) : PyStr :=
  let segs0 := splitOnNl t
  let segs1 := segs0.map (fun s => if !s.isEmpty && s.all isIndentChar then [] else s)
  let indents := (segs1.filter (fun s => s.any (fun c => !(isIndentChar c)))).map
      (fun s => s.takeWhile isIndentChar)
  let margin := match indents with
    | [] => []
    | h :: tl => tl.foldl commonPre h
  let segs2 := if margin.isEmpty then segs1
    else segs1.map (fun s => if margin.isPrefixOf s then s.drop margin.length else s)
  joinNl segs2

/-- Translation of merge_tests._reindent: dedent the snippet completely,
then indent each non-blank line with baseIndentStr (which is replaced by the
empty indent when it contains non-whitespace), normalising the result to end
with a newline. -/
def reindent (snippet : PyStr) (baseIndentStr : PyStr) : PyStr :=
  let base := if !(stripWs baseIndentStr).isEmpty then [] else baseIndentStr
  let dls := splitlinesNoKeep (dedentText snippet)
  if !(dls.any (fun l => !(stripWs l).isEmpty)) && !dls.isEmpty then
    List.replicate dls.length nlChar
  else
    let rls := dls.map (fun l => if !(stripWs l).isEmpty then base ++ l else l)
    let res := joinNl rls
    if !res.isEmpty && !(endsWithNl res) then res ++ [nlChar] else res

/-- Translation of merge_tests._splice: insert the payload before the given
0-based position, clamped into range (the lower clamp is implicit in Nat). -/
def splice {α : Type} (lines : List α) (pos : Nat) (payload : List α) : List α :=
  let p := min pos lines.length
  lines.take p ++ payload ++ lines.drop p

/-- The line-range extraction at the heart of _get_node_source_segment_v2:
lines startLn..endLn of the source (1-based, inclusive), joined and stripped
of trailing whitespace. -/
def segRange (srcLines : List PyStr) (startLn endLn : Nat) : PyStr :=
  rstripWs (joinText ((srcLines.drop (startLn - 1)).take (endLn - (startLn - 1))))

/-- The five name components of ast.arguments that Merger._signatures_match
compares: positional-only names, positional names, the optional variadic
positional name, keyword-only names, and the optional variadic keyword
name. -/
structure PyArguments where
  posonlyargs : List PyStr
  args : List PyStr
  vararg : Option PyStr
  kwonlyargs : List PyStr
  kwarg : Option PyStr
deriving DecidableEq, Repr

/-- Python repr of an identifier string inside an f-string interpolation of
a list: the name surrounded by single quotes. -/
def pyQuoted (s : PyStr) : PyStr := squote :: (s ++ [squote])

/-- Python str() of a list of identifier strings, as produced inside the
signature-mismatch f-strings. -/
def pyListRepr (l : List PyStr) : PyStr :=
  ['['] ++ sepJoin (s2l r", ") (l.map pyQuoted) ++ [']']

/-- Python str() of an optional name: the name itself, or None. -/
def pyOptStr (o : Option PyStr) : PyStr :=
  match o with
  | none => s2l r"None"
  | some s => s

/-- Translation of Merger._signatures_match: the five components are
compared in order and the first mismatch produces the reported reason. -/
def signatures_match (sig1 sig2 : PyArguments) : Bool × PyStr :=
  if sig1.posonlyargs ≠ sig2.posonlyargs then
    (false, s2l r"Positional-only arguments differ: " ++ pyListRepr sig1.posonlyargs
      ++ s2l r" vs " ++ pyListRepr sig2.posonlyargs)
  else if sig1.args ≠ sig2.args then
    (false, s2l r"Positional arguments differ: " ++ pyListRepr sig1.args
      ++ s2l r" vs " ++ pyListRepr sig2.args)
  else if sig1.vararg ≠ sig2.vararg then
    (false, s2l r"*args differ: " ++ pyQuoted (pyOptStr sig1.vararg)
      ++ s2l r" vs " ++ pyQuoted (pyOptStr sig2.vararg))
  else if sig1.kwonlyargs ≠ sig2.kwonlyargs then
    (false, s2l r"Keyword-only arguments differ: " ++ pyListRepr sig1.kwonlyargs
      ++ s2l r" vs " ++ pyListRepr sig2.kwonlyargs)
  else if sig1.kwarg ≠ sig2.kwarg then
    (false, s2l r"**kwargs differ: " ++ pyQuoted (pyOptStr sig1.kwarg)
      ++ s2l r" vs " ++ pyQuoted (pyOptStr sig2.kwarg))
  else (true, [])

/-- Line span of a generic statement node (the merger reads nothing else of
body statements). -/
structure PyStmt where
  lineno : Nat
  end_lineno : Nat
deriving DecidableEq, Repr

/-- Line span of a decorator expression node. -/
structure PyDeco where
  lineno : Nat
  end_lineno : Nat
deriving DecidableEq, Repr

/-- The attributes of an ast.FunctionDef that the merger reads.  All line
numbers are 1-based; in CPython 3.8+ lineno is the line of the def keyword
itself, with decorators on earlier lines. -/
structure PyFunctionDef where
  name : PyStr
  args : PyArguments
  lineno : Nat
  end_lineno : Nat
  decorator_list : List PyDeco
  body : List PyStmt
deriving DecidableEq, Repr

/-- An immediate member of a class body: a method definition or any other
statement (of which only the line span is read). -/
inductive PyClsMember where
  | meth (fn : PyFunctionDef)
  | stmt (s : PyStmt)
deriving DecidableEq, Repr

/-- End line of a class-body member. -/
def PyClsMember.end_lineno : PyClsMember → Nat
  | .meth f => f.end_lineno
  | .stmt s => s.end_lineno

/-- The attributes of an ast.ClassDef that the merger reads. -/
structure PyClassDef where
  name : PyStr
  lineno : Nat
  end_lineno : Nat
  decorator_list : List PyDeco
  body : List PyClsMember
deriving DecidableEq, Repr

/-- An import statement as the structural index sees it: its ast.dump
(the structural-identity key, carried as an opaque string) and its end
line. -/
structure PyImport where
  dump : PyStr
  end_lineno : Nat
deriving DecidableEq, Repr

/-- The Merger state: the line buffer (splitlines keepends=True of the
current text) together with the structural index that _refresh_index
derives by re-parsing it.  The index is carried as data; every mutating
operation updates it with exactly the line-number arithmetic that the
re-parse performs on the edited text. -/
structure MergerState where
  lines : List PyStr
  imports : List PyImport
  cls_map : List (PyStr × PyClassDef)
  fn_map : List (PyStr × PyFunctionDef)
deriving DecidableEq, Repr

/-- Python dict lookup over the insertion-ordered association list. -/
def dictFind {β : Type} (m : List (PyStr × β)) (k : PyStr) : Option β :=
  (m.find? (fun p => p.1 == k)).map (fun p => p.2)

/-- Python dict assignment: update the value in place when the key exists,
else append a new entry. -/
def dictSet {β : Type} (m : List (PyStr × β)) (k : PyStr) (v : β) : List (PyStr × β) :=
  if m.any (fun p => p.1 == k) then m.map (fun p => if p.1 == k then (k, v) else p)
  else m ++ [(k, v)]

/-- Effect of inserting k full text lines at 0-based position p on a 1-based
line attribute: lines at or after the insertion point move down by k. -/
def shiftLn (p k ln : Nat) : Nat := if p + 1 ≤ ln then ln + k else ln

/-- Shift of a statement span. -/
def shiftStmt (p k : Nat) (s : PyStmt) : PyStmt :=
  ⟨shiftLn p k s.lineno, shiftLn p k s.end_lineno⟩

/-- Shift of a decorator span. -/
def shiftDeco (p k : Nat) (d : PyDeco) : PyDeco :=
  ⟨shiftLn p k d.lineno, shiftLn p k d.end_lineno⟩

/-- Shift of a function node. -/
def shiftFn (p k : Nat) (f : PyFunctionDef) : PyFunctionDef :=
  { f with
    lineno := shiftLn p k f.lineno
    end_lineno := shiftLn p k f.end_lineno
    decorator_list := f.decorator_list.map (shiftDeco p k)
    body := f.body.map (shiftStmt p k) }

/-- Shift of a class member. -/
def shiftMember (p k : Nat) : PyClsMember → PyClsMember
  | .meth f => .meth (shiftFn p k f)
  | .stmt s => .stmt (shiftStmt p k s)

/-- Shift of a class node. -/
def shiftCls (p k : Nat) (c : PyClassDef) : PyClassDef :=
  { c with
    lineno := shiftLn p k c.lineno
    end_lineno := shiftLn p k c.end_lineno
    decorator_list := c.decorator_list.map (shiftDeco p k)
    body := c.body.map (shiftMember p k) }

/-- Shift of an import entry. -/
def shiftImport (p k : Nat) (i : PyImport) : PyImport :=
  { i with end_lineno := shiftLn p k i.end_lineno }

/-- Shift of the whole structural index (the lines are handled separately). -/
def shiftMaps (p k : Nat) (st : MergerState) : MergerState :=
  { st with
    imports := st.imports.map (shiftImport p k)
    cls_map := st.cls_map.map (fun e => (e.1, shiftCls p k e.2))
    fn_map := st.fn_map.map (fun e => (e.1, shiftFn p k e.2)) }

/-- Start line of the source segment of a function node: its first
decorator line when decorated, else its definition line (the rule of
_get_node_source_segment_v2). -/
def fnSegStart (f : PyFunctionDef) : Nat :=
  match f.decorator_list with
  | [] => f.lineno
  | d :: _ => d.lineno

/-- Start line of the source segment of a class node. -/
def clsSegStart (c : PyClassDef) : Nat :=
  match c.decorator_list with
  | [] => c.lineno
  | d :: _ => d.lineno

/-- Downward re-basing of a 1-based line attribute by m lines. -/
def downLn (m ln : Nat) : Nat := ln - m

/-- Function node re-based so that line m+1 becomes line 1. -/
def relFnAt (m : Nat) (f : PyFunctionDef) : PyFunctionDef :=
  { f with
    lineno := downLn m f.lineno
    end_lineno := downLn m f.end_lineno
    decorator_list := f.decorator_list.map (fun d => ⟨downLn m d.lineno, downLn m d.end_lineno⟩)
    body := f.body.map (fun b => ⟨downLn m b.lineno, downLn m b.end_lineno⟩) }

/-- Class member re-based by m lines. -/
def relMemberAt (m : Nat) : PyClsMember → PyClsMember
  | .meth f => .meth (relFnAt m f)
  | .stmt s => .stmt ⟨downLn m s.lineno, downLn m s.end_lineno⟩

/-- Class node re-based by m lines. -/
def relClsAt (m : Nat) (c : PyClassDef) : PyClassDef :=
  { c with
    lineno := downLn m c.lineno
    end_lineno := downLn m c.end_lineno
    decorator_list := c.decorator_list.map (fun d => ⟨downLn m d.lineno, downLn m d.end_lineno⟩)
    body := c.body.map (relMemberAt m) }

/-- Re-parse oracle for an extracted function snippet: parsing the (dedented)
source segment of a function node yields the same node with line numbers
re-based to start at the segment (dedenting only changes columns). -/
def relativizeFn (f : PyFunctionDef) : PyFunctionDef := relFnAt (fnSegStart f - 1) f

/-- Re-parse oracle for an extracted class snippet. -/
def relativizeCls (c : PyClassDef) : PyClassDef := relClsAt (clsSegStart c - 1) c

/-- The defensive per-line normalisation of _refresh_index: a line with
content but no trailing newline gets one. -/
def normalizeLine (l : PyStr) : PyStr :=
  if !(stripWs l).isEmpty && !endsWithNl l then rstripCrLf l ++ [nlChar] else l

/-- The text _refresh_index re-parses: normalised lines, joined, with a
final newline appended when missing. -/
def refreshText (lines : List PyStr) : PyStr :=
  let t := joinText (lines.map normalizeLine)
  if !endsWithNl t && !(stripWs t).isEmpty then t ++ [nlChar] else t

/-- The line buffer and index after _refresh_index: a blank buffer keeps its
lines and empties the index; otherwise the buffer is re-split from the
normalised text and the supplied (already re-computed) index is kept. -/
def applyRefresh (lines2 : List PyStr) (st2 : MergerState) : MergerState :=
  if (stripWs (joinText lines2)).isEmpty then
    { lines := lines2, imports := [], cls_map := [], fn_map := [] }
  else
    { imports := st2.imports
      cls_map := st2.cls_map
      fn_map := st2.fn_map
      lines := splitKeepNl (refreshText lines2) }

/-- Translation of _last_import_line: the largest end line over all imports,
0 when there are none. -/
def last_import_line (st : MergerState) : Nat :=
  st.imports.foldl (fun acc i => max acc i.end_lineno) 0

/-- Index entries for freshly spliced import snippets: the i-th snippet ends
at the splice position plus the cumulative number of its text lines. -/
def newImportInfos (p : Nat) (imps : List (PyStr × PyStr)) : List PyImport :=
  (imps.foldl (fun (acc : List PyImport × Nat) i =>
      let n := acc.2 + countNl i.1
      (acc.1 ++ [⟨i.2, n⟩], n)) ([], p)).1

/-- Translation of Merger.add_imports followed by its _refresh_index.  Each
element is a (snippet, ast.dump) pair, the dump being the re-parse oracle
for the inserted text.  The snippets are spliced directly after the last
existing import line; the re-parse is modelled by shifting every line
attribute at or past the splice point and appending the new import
entries. -/
def add_imports (st : MergerState) (imps : List (PyStr × PyStr)) : MergerState :=
  if imps.isEmpty then st
  else
    let p := last_import_line st
    let lines2 := splice st.lines p (imps.map (fun i => i.1))
    let k := countNl (joinText (imps.map (fun i => i.1)))
    let stS := shiftMaps p k st
    applyRefresh lines2 { stS with imports := stS.imports ++ newImportInfos p imps }

/-- Whether a string ends with two newline characters. -/
def endsWithNlNl (s : PyStr) : Bool :=
  match s.reverse with
  | c1 :: c2 :: _ => c1 = '\n' && c2 = '\n'
  | _ => false

/-- Normalisation merge_tests and the Merger apply to snippets: a snippet
with content is made to end with a newline. -/
def snippetFix (s : PyStr) : PyStr :=
  if !(stripWs s).isEmpty && !endsWithNl s then rstripCrLf s ++ [nlChar] else s

/-- A parsed top-level definition in snippet-relative coordinates (line 1 is
the first snippet line): the re-parse oracle for a snippet spliced by
add_class_or_func. -/
inductive RelDef where
  | cls (c : PyClassDef)
  | fn (f : PyFunctionDef)
deriving DecidableEq, Repr

/-- Translation of Merger.add_class_or_func plus its refresh: the snippet is
appended at end of file, preceded by one blank line unless the buffer is
empty, its last line is blank, or it already ends with a blank line (a last
line with content but no newline is terminator-fixed first).  The re-parse
is modelled by placing the supplied relative node at its absolute position
in the grown file. -/
def add_class_or_func (st : MergerState) (snippet : PyStr) (node : RelDef) : MergerState :=
  let clean := snippetFix snippet
  let lastBlankOrEmpty :=
    match st.lines.getLast? with
    | none => true
    | some l => (stripWs l).isEmpty || endsWithNlNl l
  let lines1 :=
    if lastBlankOrEmpty then st.lines
    else
      match st.lines.getLast? with
      | some l => if !endsWithNl l then st.lines.dropLast ++ [rstripCrLf l ++ [nlChar]] else st.lines
      | none => st.lines
  let pre : PyStr := if lastBlankOrEmpty then [] else [nlChar]
  let lines2 := splice lines1 lines1.length [pre ++ clean]
  let off := countNl (joinText lines1) + countNl pre
  let st2 :=
    match node with
    | .cls c => { st with cls_map := dictSet st.cls_map c.name (shiftCls 0 off c) }
    | .fn f => { st with fn_map := dictSet st.fn_map f.name (shiftFn 0 off f) }
  applyRefresh lines2 st2

/-- One indent level below a given indent: four spaces, or a tab when the
indent already contains a tab. -/
def childIndent (baseIndent : PyStr) : PyStr :=
  baseIndent ++ (if baseIndent.contains '\t' then ['\t'] else s2l r"    ")

/-- Translation of Merger.add_methods plus its refresh.  Each snippet comes
with the re-parse oracle of its own parse in snippet-relative coordinates.
A missing class only logs an error and returns the state unchanged; the
function raises no exception (the Option component is the raised error and
is always none). -/
def add_methods (st : MergerState) (class_name : PyStr)
    (methods : List (PyFunctionDef × PyStr)) : MergerState × Option PyStr :=
  match dictFind st.cls_map class_name with
  | none => (st, none)
  | some cls =>
    let insertion :=
      match cls.body.getLast? with
      | some m => m.end_lineno
      | none => cls.lineno
    let clsIdx := cls.lineno - 1
    let class_indent :=
      if clsIdx < st.lines.length then get_leading_whitespace (st.lines.getD clsIdx []) else []
    let method_indent := childIndent class_indent
    let prevOk := 1 ≤ insertion && insertion - 1 < st.lines.length
    let fixSep : List PyStr × List PyStr :=
      if prevOk then
        let prev := insertion - 1
        let cur := st.lines.getD prev []
        if !(stripWs cur).isEmpty && !endsWithNl cur then
          (st.lines.set prev (rstripCrLf cur ++ [nlChar]), [[nlChar]])
        else if !(stripWs cur).isEmpty then (st.lines, [[nlChar]])
        else (st.lines, [])
      else if !st.lines.isEmpty then (st.lines, [[nlChar]])
      else (st.lines, [])
    let lines1 := fixSep.1
    let sepPayload := fixSep.2
    let payload := sepPayload ++ methods.map (fun ms => reindent ms.2 method_indent)
    let lines2 := splice lines1 insertion payload
    let k := countNl (joinText payload)
    let sepN := countNl (joinText sepPayload)
    let newMembers := (methods.foldl (fun (acc : List PyClsMember × Nat) ms =>
        let cnt := countNl (reindent ms.2 method_indent)
        (acc.1 ++ [PyClsMember.meth (shiftFn 0 acc.2 ms.1)], acc.2 + cnt))
        ([], insertion + sepN)).1
    let stS := shiftMaps insertion k st
    let clsS := shiftCls insertion k cls
    let cls2 := { clsS with
                  body := clsS.body ++ newMembers
                  end_lineno := max clsS.end_lineno (insertion + k) }
    (applyRefresh lines2 { stS with cls_map := dictSet stS.cls_map class_name cls2 }, none)

/-- Decimal rendering of a natural number, for error messages. -/
def natStr (n : Nat) : PyStr := (Nat.repr n).data

/-- Error message for a missing target class. -/
def msgTargetClassNotFound (c : PyStr) : PyStr :=
  s2l r"Target class " ++ pyQuoted c ++ s2l r" not found."

/-- Error message for a missing target method. -/
def msgTargetMethodNotFound (c m : PyStr) : PyStr :=
  s2l r"Target method " ++ pyQuoted (c ++ ['.'] ++ m) ++ s2l r" not found."

/-- Error message for a missing target function. -/
def msgTargetFnNotFound (f : PyStr) : PyStr :=
  s2l r"Target function " ++ pyQuoted f ++ s2l r" not found."

/-- Error message for a signature mismatch, wrapping the reason produced by
signatures_match. -/
def msgSignaturesDiffer (t reason : PyStr) : PyStr :=
  s2l r"Signatures differ for " ++ pyQuoted t ++ s2l r": " ++ reason

/-- Error message for a definition line outside the buffer. -/
def msgLinenoOutOfBounds (t : PyStr) (ln len : Nat) : PyStr :=
  s2l r"Target " ++ pyQuoted t ++ s2l r" lineno " ++ natStr ln
    ++ s2l r" out of bounds for file len " ++ natStr len ++ s2l r"."

/-- Error message for a definition line that holds neither a def nor a
decorator. -/
def msgBadDefLine (t : PyStr) (ln : Nat) : PyStr :=
  s2l r"AST lineno for " ++ pyQuoted t ++ s2l r" (line " ++ natStr ln
    ++ s2l r") does not point to its definition. Cannot reliably insert decorators."

/-- Target resolution at the top of append_callable_body: the first body
member of the class with the given name when a class is given, else the
fn_map entry. -/
def resolveTarget (st : MergerState) (targetCls : Option PyStr) (targetName : PyStr) :
    Except PyStr PyFunctionDef :=
  match targetCls with
  | some c =>
    match dictFind st.cls_map c with
    | none => .error (msgTargetClassNotFound c)
    | some cls =>
      match cls.body.findSome? (fun m =>
          match m with
          | .meth f => if f.name == targetName then some f else none
          | .stmt _ => none) with
      | none => .error (msgTargetMethodNotFound c targetName)
      | some f => .ok f
  | none =>
    match dictFind st.fn_map targetName with
    | none => .error (msgTargetFnNotFound targetName)
    | some f => .ok f

/-- A new-callable snippet for append_callable_body: the raw snippet text
plus the ast.parse oracle of its dedented form, i.e. the single function
definition the dedented snippet parses to, with line numbers relative to
the snippet.  (append_callable_body raises on a snippet that does not parse
to a single function definition; such snippets are outside this type.) -/
structure Snippet where
  text : PyStr
  node : PyFunctionDef
deriving DecidableEq, Repr

/-- Rebuilding of one decorator expression at the target indentation: the
first segment line and every further line are stripped of their own leading
whitespace and re-prefixed with the target indent, joined with newlines and
newline-terminated (the loop body of the decorator merge). -/
def decoRebuild (indent seg : PyStr) : PyStr :=
  let dls := splitlinesNoKeep seg
  let first := lstripWs (dls.headD [])
  joinNl ((indent ++ first) :: (dls.tail.map (fun l => indent ++ lstripWs l))) ++ [nlChar]

/-- The decorator payload loop of append_callable_body: every decorator of
the new callable whose stripped source segment is non-empty and not already
among the stripped target decorator sources is rebuilt at the target
indentation. -/
def decoPayload (dedLines : List PyStr) (targetSet : List PyStr) (indent : PyStr) :
    List PyDeco → List PyStr
  | [] => []
  | d :: rest =>
    let seg := segRange dedLines d.lineno d.end_lineno
    if seg.isEmpty then decoPayload dedLines targetSet indent rest
    else if targetSet.contains (stripWs seg) then decoPayload dedLines targetSet indent rest
    else decoRebuild indent seg :: decoPayload dedLines targetSet indent rest

/-- Fallback body indent of append_callable_body: the definition-line
indentation plus one level. -/
def fallbackIndent (lines : List PyStr) (defLn : Nat) : PyStr :=
  let i := defLn - 1
  let di := if i < lines.length then get_leading_whitespace (lines.getD i []) else []
  childIndent di

/-- The body splice position computed by append_callable_body from the
(re-resolved) target node: after its last body statement, or directly after
the definition line when the body is empty. -/
def bodySpliceIdx (tgt : PyFunctionDef) : Nat :=
  match tgt.body.getLast? with
  | some lastStmt => lastStmt.end_lineno
  | none => tgt.lineno

/-- The body indentation computed by append_callable_body: the indentation
of the target's first body statement line, falling back to the
definition-line indent plus one level when that line is out of range, or
when it has content flush at column zero. -/
def bodyIndent (lines : List PyStr) (tgt : PyFunctionDef) : PyStr :=
  match tgt.body.head? with
  | some firstStmt =>
    let fi := firstStmt.lineno - 1
    if fi < lines.length then
      let bi := get_leading_whitespace (lines.getD fi [])
      if bi.isEmpty && !(stripWs (lines.getD fi [])).isEmpty then fallbackIndent lines tgt.lineno
      else bi
    else fallbackIndent lines tgt.lineno
  | none => fallbackIndent lines tgt.lineno

/-- Decorator spans for freshly inserted decorator payload elements starting
at 0-based position d. -/
def newDecoInfos (d : Nat) (payload : List PyStr) : List PyDeco :=
  (payload.foldl (fun (acc : List PyDeco × Nat) pl =>
      let cnt := countNl pl
      (acc.1 ++ [⟨acc.2 + 1, acc.2 + cnt⟩], acc.2 + cnt)) ([], d)).1

/-- Replacement of the first method member with a given name (the member
resolveTarget picks). -/
def replaceFirstMeth (name : PyStr) (f2 : PyFunctionDef) : List PyClsMember → List PyClsMember
  | [] => []
  | .meth f :: rest =>
    if f.name == name then .meth f2 :: rest else .meth f :: replaceFirstMeth name f2 rest
  | m :: rest => m :: replaceFirstMeth name f2 rest

/-- Store an updated target node back into the structural index, in the
fn_map or inside its class. -/
def storeTarget (st : MergerState) (targetCls : Option PyStr) (targetName : PyStr)
    (tgt2 : PyFunctionDef) (extendEnd : Option Nat) : MergerState :=
  match targetCls with
  | none => { st with fn_map := dictSet st.fn_map targetName tgt2 }
  | some c =>
    match dictFind st.cls_map c with
    | none => st
    | some cls =>
      let cls2 := { cls with
        body := replaceFirstMeth targetName tgt2 cls.body
        end_lineno := match extendEnd with
          | none => cls.end_lineno
          | some e => max cls.end_lineno e }
      { st with cls_map := dictSet st.cls_map c cls2 }

/-- The second half of Merger.append_callable_body, from body extraction
onward, operating on the state and target node as they stand after the
decorator merge: the extracted statement range of the new callable is
re-indented to the computed body indentation and spliced after the target
body with the blank-line separator rule, followed by the final refresh
(modelled by extending the target node and its class with the appended
statements). -/
def acb_body_phase (st2 : MergerState) (tgt2 : PyFunctionDef) (targetCls : Option PyStr)
    (targetName : PyStr) (snip : Snippet) : MergerState × Option PyStr :=
  let dedLines := splitKeepNl (dedentText snip.text)
  let bodyLinesNew :=
    match snip.node.body.head?, snip.node.body.getLast? with
    | some f0, some l0 =>
      (dedLines.drop (f0.lineno - 1)).take (l0.end_lineno - (f0.lineno - 1))
    | _, _ => []
  let bodyStr := joinText bodyLinesNew
  if (stripWs bodyStr).isEmpty then (st2, none)
  else
    let bIdx := bodySpliceIdx tgt2
    let bi := bodyIndent st2.lines tgt2
    let reind := reindent bodyStr bi
    let fixSep : List PyStr × PyStr :=
      if 1 ≤ bIdx && bIdx - 1 < st2.lines.length then
        let prev := st2.lines.getD (bIdx - 1) []
        if (stripWs prev).isEmpty then (st2.lines, [])
        else if !endsWithNl prev then
          (st2.lines.set (bIdx - 1) (rstripCrLf prev ++ [nlChar]), [nlChar])
        else (st2.lines, [nlChar])
      else (st2.lines, [nlChar])
    let lines3 := fixSep.1
    let sep := fixSep.2
    let lines4 := splice lines3 bIdx [sep ++ reind]
    let k2 := countNl (sep ++ reind)
    let sepN := countNl sep
    let newStmts :=
      match snip.node.body.head? with
      | some f0 => snip.node.body.map (fun s =>
          PyStmt.mk (s.lineno + (bIdx + sepN + 1) - f0.lineno)
            (s.end_lineno + (bIdx + sepN + 1) - f0.lineno))
      | none => []
    let tgt3base := shiftFn bIdx k2 tgt2
    let tgt3 := { tgt3base with
      body := tgt3base.body ++ newStmts
      end_lineno := max tgt3base.end_lineno (bIdx + k2) }
    let stS3 := storeTarget (shiftMaps bIdx k2 st2) targetCls targetName tgt3
        (some (bIdx + k2))
    (applyRefresh lines4 stS3, none)

/-- Translation of Merger.append_callable_body together with its two
internal refreshes.  The Option component is the raised ValueError; the
returned state is the state at exit, so mutations already applied before a
raise are kept, matching the in-place Python mutation.  The re-parse after
the decorator splice is modelled by shifting the target node past the
inserted lines and recording the inserted decorators; the re-parse after
the body splice extends the target node (and its class) with the appended
statements. -/
def append_callable_body (st : MergerState) (targetName : PyStr) (snip : Snippet)
    (targetCls : Option PyStr := none) : MergerState × Option PyStr :=
  match resolveTarget st targetCls targetName with
  | .error e => (st, some e)
  | .ok tgt =>
    let ded := dedentText snip.text
    let sigRes := signatures_match snip.node.args tgt.args
    if !sigRes.1 then (st, some (msgSignaturesDiffer targetName sigRes.2))
    else
      let d := tgt.lineno - 1
      if !(d < st.lines.length) then
        (st, some (msgLinenoOutOfBounds targetName tgt.lineno st.lines.length))
      else
        let lineAt := st.lines.getD d []
        let strippedLine := lstripWs lineAt
        if !((s2l r"def ").isPrefixOf strippedLine || (['@']).isPrefixOf strippedLine) then
          (st, some (msgBadDefLine targetName tgt.lineno))
        else
          let indent := get_leading_whitespace lineAt
          let srcLines := splitKeepNl (joinText st.lines)
          let targetSet := tgt.decorator_list.map
              (fun dn => stripWs (segRange srcLines dn.lineno dn.end_lineno))
          let dedLines := splitKeepNl ded
          let payload := decoPayload dedLines targetSet indent snip.node.decorator_list
          let k := countNl (joinText payload)
          let str2 :=
            if payload.isEmpty then (st, tgt)
            else
              let lines2 := splice st.lines d payload
              let tgtU := { shiftFn d k tgt with
                decorator_list := tgt.decorator_list ++ newDecoInfos d payload }
              let stU := storeTarget (shiftMaps d k st) targetCls targetName tgtU none
              (applyRefresh lines2 stU, tgtU)
          acb_body_phase str2.1 str2.2 targetCls targetName snip

/-- The decorator payload append_callable_body computes from the state, the
resolved target node and the snippet (spelled out for use in theorem
statements; definitionally the payload computed inside the operation). -/
def acb_deco_payload (st : MergerState) (tgt : PyFunctionDef) (snip : Snippet) : List PyStr :=
  decoPayload (splitKeepNl (dedentText snip.text))
    (tgt.decorator_list.map (fun dn =>
      stripWs (segRange (splitKeepNl (joinText st.lines)) dn.lineno dn.end_lineno)))
    (get_leading_whitespace (st.lines.getD (tgt.lineno - 1) []))
    snip.node.decorator_list

/-- The extracted body lines of the new callable: the lines of the dedented
snippet from its first statement line to its last statement end line
(definitionally the slice computed inside append_callable_body). -/
def acb_body_lines (snip : Snippet) : List PyStr :=
  match snip.node.body.head?, snip.node.body.getLast? with
  | some f0, some l0 =>
    ((splitKeepNl (dedentText snip.text)).drop (f0.lineno - 1)).take
      (l0.end_lineno - (f0.lineno - 1))
  | _, _ => []

/-- Values that reach ExtractedFunction.func_name in the orchestrator: a
string on the intended paths, or a whole function node through the untyped
tuple unpacking slip in the ADD-mode pending-methods path of merge_tests. -/
inductive EFName where
  | str (s : PyStr)
  | node (f : PyFunctionDef)
deriving DecidableEq, Repr

/-- Translation of test_extractor.ExtractedFunction: the nominal identity
pair (class_name, func_name) plus denormalised payload fields (captured
source and originating file path). -/
structure ExtractedFunction where
  class_name : Option PyStr
  func_name : EFName
  func_def : Option PyStr
  file_path : Option PyStr
deriving DecidableEq, Repr

/-- Deterministic stand-in for the CPython hash of a string. -/
def strHash (s : PyStr) : Nat := s.foldl (fun h c => h * 31 + c.toNat) 7

/-- Hash of the optional class name. -/
def optStrHash : Option PyStr → Nat
  | none => 0
  | some s => 2 * strHash s + 1

/-- Hash of a func_name value (CPython hashes a node by identity; the model
uses a deterministic function of the node instead). -/
def efNameHash : EFName → Nat
  | .str s => 2 * strHash s
  | .node f => 2 * strHash f.name + 1

/-- Translation of ExtractedFunction.hash: a hash of the
(class_name, func_name) pair and nothing else. -/
def efHash (e : ExtractedFunction) : Nat :=
  optStrHash e.class_name * 1000003 + efNameHash e.func_name

/-- Translation of ExtractedFunction equality: the two hashes are equal
(the eq method literally compares self.hash() to other.hash()). -/
def efBeq (a b : ExtractedFunction) : Bool := efHash a == efHash b

/-- Python set.add over the merged-callable set. -/
def efInsert (l : List ExtractedFunction) (e : ExtractedFunction) : List ExtractedFunction :=
  if l.any (fun x => efBeq x e) then l else l ++ [e]

/-- Python set.update over the merged-callable set. -/
def efUpdate (l : List ExtractedFunction) (es : List ExtractedFunction) : List ExtractedFunction :=
  es.foldl efInsert l

/-- A top-level statement of the parsed new unit, as merge_tests classifies
them; line numbers refer to the new-unit source. -/
inductive NewNode where
  | imp (dump : PyStr) (lineno end_lineno : Nat)
  | cls (node : PyClassDef)
  | fn (node : PyFunctionDef)
  | other (lineno end_lineno : Nat)
deriving DecidableEq, Repr

/-- Ghost trace of the Merger mutations merge_tests performs, in call
order. -/
inductive Op where
  | addImports (n : Nat)
  | addClassOrFunc (name : PyStr)
  | addMethods (cls : PyStr) (n : Nat)
  | appendBody (cls : Option PyStr) (target : PyStr)
deriving DecidableEq, Repr

/-- Accumulator of the top-level statement walk of merge_tests. -/
structure ScanAcc where
  st : MergerState
  impsDumps : List PyStr
  newImports : List (PyStr × PyStr)
  pendAdd : List (PyStr × List (PyFunctionDef × PyStr))
  pendAppend : List (PyStr × List (PyFunctionDef × PyStr))
  pendFnAppend : List (PyStr × (PyFunctionDef × PyStr))
  merged : List ExtractedFunction
  trace : List Op

/-- Python dict.setdefault(k, []).extend(vs). -/
def pendExtend (m : List (PyStr × List (PyFunctionDef × PyStr))) (k : PyStr)
    (vs : List (PyFunctionDef × PyStr)) : List (PyStr × List (PyFunctionDef × PyStr)) :=
  if m.any (fun p => p.1 == k) then m.map (fun p => if p.1 == k then (p.1, p.2 ++ vs) else p)
  else m ++ [(k, vs)]

/-- The (node, snippet) pairs merge_tests collects for the immediate method
definitions of a new class (snippets with content are newline-fixed; empty
segments are dropped). -/
def methodsInNewClass (newSrcLines : List PyStr) (c : PyClassDef) :
    List (PyFunctionDef × PyStr) :=
  c.body.foldr (fun m acc =>
    match m with
    | .meth f =>
      let s := segRange newSrcLines (fnSegStart f) f.end_lineno
      if s.isEmpty then acc else (f, snippetFix s) :: acc
    | .stmt _ => acc) []

/-- One step of the top-level statement walk of merge_tests: imports are
queued for later insertion with structural dedup against the running dump
set; in ADD mode absent classes/functions are spliced immediately and
present classes queue their methods; in APPEND mode classes and functions
only queue their callables. -/
def scanNode (mode : PyStr) (newSrcLines : List PyStr) (acc : ScanAcc) (node : NewNode) :
    ScanAcc :=
  match node with
  | .imp dump ln el =>
    let snip := segRange newSrcLines ln el
    if snip.isEmpty then acc
    else
      let snip2 := snippetFix snip
      if acc.impsDumps.contains dump then acc
      else { acc with
        newImports := acc.newImports ++ [(snip2, dump)]
        impsDumps := acc.impsDumps ++ [dump] }
  | .cls c =>
    let snip0 := segRange newSrcLines (clsSegStart c) c.end_lineno
    if snip0.isEmpty then acc
    else
      let snip := snippetFix snip0
      let meths := methodsInNewClass newSrcLines c
      if mode == s2l r"ADD" then
        if (dictFind acc.st.cls_map c.name).isNone then
          let st2 := add_class_or_func acc.st snip (.cls (relativizeCls c))
          let efs := (meths.filter (fun p => (s2l r"test_").isPrefixOf p.1.name)).map
              (fun p => ExtractedFunction.mk (some c.name) (.str p.1.name) (some p.2) none)
          { acc with
            st := st2
            merged := efUpdate acc.merged efs
            trace := acc.trace ++ [Op.addClassOrFunc c.name] }
        else { acc with pendAdd := pendExtend acc.pendAdd c.name meths }
      else if mode == s2l r"APPEND" then
        { acc with pendAppend := pendExtend acc.pendAppend c.name meths }
      else acc
  | .fn f =>
    let snip0 := segRange newSrcLines (fnSegStart f) f.end_lineno
    if snip0.isEmpty then acc
    else
      let snip := snippetFix snip0
      if mode == s2l r"ADD" then
        if (dictFind acc.st.fn_map f.name).isNone then
          { acc with
            st := add_class_or_func acc.st snip (.fn (relativizeFn f))
            merged := efInsert acc.merged (ExtractedFunction.mk none (.str f.name) (some snip) none)
            trace := acc.trace ++ [Op.addClassOrFunc f.name] }
        else acc
      else if mode == s2l r"APPEND" then
        { acc with pendFnAppend := dictSet acc.pendFnAppend f.name (f, snip) }
      else acc
  | .other _ _ => acc

/-- Orchestrator state threaded through the phase folds of merge_tests; err
holds the raised (propagating) error, after which every later step is a
no-op, matching the unwinding raise. -/
structure OState where
  st : MergerState
  err : Option PyStr
  merged : List ExtractedFunction
  trace : List Op

/-- Python membership test of an ast node object in a set of name strings
(the ADD-mode dedup filter unpacks its (node, snippet) tuples as
(name, snippet)): nodes hash by identity, so the test is always false and
the filter removes nothing. -/
def nodeInNames (_f : PyFunctionDef) (_names : List PyStr) : Bool := false

/-- The method names of the existing class, as the ADD phase collects
them. -/
def methNamesOf (c : PyClassDef) : List PyStr :=
  c.body.foldr (fun m acc =>
    match m with
    | .meth f => f.name :: acc
    | .stmt _ => acc) []

/-- One pending-class step of the ADD phase of merge_tests: methods of the
new class that survive the (never-filtering) presence test are added to the
existing class and recorded in the merged set with the node itself in the
func_name slot. -/
def addPhaseStep (acc : OState) (entry : PyStr × List (PyFunctionDef × PyStr)) : OState :=
  match dictFind acc.st.cls_map entry.1 with
  | none => acc
  | some cls =>
    let existing := methNamesOf cls
    let toAdd := entry.2.filter (fun p => !(nodeInNames p.1 existing))
    if toAdd.isEmpty then acc
    else
      let st2 := (add_methods acc.st entry.1 (toAdd.map (fun p => (relativizeFn p.1, p.2)))).1
      let efs := (entry.2.filter (fun p => !(nodeInNames p.1 existing))).map
          (fun p => ExtractedFunction.mk (some entry.1) (.node p.1) (some p.2) none)
      { acc with
        st := st2
        merged := efUpdate acc.merged efs
        trace := acc.trace ++ [Op.addMethods entry.1 toAdd.length] }

/-- The shape test the APPEND phase applies to a method mapping value:
split at the first dot; no dot (tuple unpack failure) or an empty half (the
explicit Bad format raise) make the entry malformed, which the surrounding
except turns into a skip. -/
def splitDot1 (s : PyStr) : Option (PyStr × PyStr) :=
  let pre := s.takeWhile (fun c => !(c == '.'))
  if pre.length == s.length then none
  else
    let post := s.drop (pre.length + 1)
    if pre.isEmpty || post.isEmpty then none else some (pre, post)

/-- One APPEND-mode method mapping entry of merge_tests: a no-op once an
error is propagating; a missing mapping key or a malformed target shape
skips the entry with a warning; otherwise append_callable_body runs, a
success records the target identity, and a failure stores the propagated
error. -/
def methodAppendStep (mapping : List (PyStr × PyStr)) (srcCls : PyStr)
    (acc : OState) (entry : PyFunctionDef × PyStr) : OState :=
  if acc.err.isSome then acc
  else
    let fqNew := srcCls ++ ['.'] ++ entry.1.name
    match dictFind mapping fqNew with
    | none => acc
    | some targetFq =>
      match splitDot1 targetFq with
      | none => acc
      | some pq =>
        match append_callable_body acc.st pq.2 ⟨entry.2, relativizeFn entry.1⟩ (some pq.1) with
        | (st2, none) =>
          { acc with
            st := st2
            merged := efInsert acc.merged (ExtractedFunction.mk (some pq.1) (.str pq.2) none none)
            trace := acc.trace ++ [Op.appendBody (some pq.1) pq.2] }
        | (st2, some e) => { acc with st := st2, err := some e }

/-- One APPEND-mode function mapping entry of merge_tests: a missing key or
a dotted (method-like) target skips the entry with a warning; otherwise the
append runs with propagation as in the method case. -/
def fnAppendStep (mapping : List (PyStr × PyStr)) (acc : OState)
    (entry : PyStr × (PyFunctionDef × PyStr)) : OState :=
  if acc.err.isSome then acc
  else
    match dictFind mapping entry.1 with
    | none => acc
    | some targetFn =>
      if targetFn.contains '.' then acc
      else
        match append_callable_body acc.st targetFn ⟨entry.2.2, relativizeFn entry.2.1⟩ none with
        | (st2, none) =>
          { acc with
            st := st2
            merged := efInsert acc.merged (ExtractedFunction.mk none (.str targetFn) none none)
            trace := acc.trace ++ [Op.appendBody none targetFn] }
        | (st2, some e) => { acc with st := st2, err := some e }

/-- Python falsiness of the optional mapping argument: absent or empty. -/
def mappingFalsy (m : Option (List (PyStr × PyStr))) : Bool :=
  match m with
  | none => true
  | some l => l.isEmpty

/-- Python str.upper over an ASCII mode string. -/
def asciiUpper (s : PyStr) : PyStr := s.map Char.toUpper

/-- The MissingMapping error text. -/
def msgMapRequired : PyStr := s2l r"--map is required in APPEND mode."

/-- The FOLD placeholder error text (a NotImplementedError in the source). -/
def msgFoldNotImpl : PyStr := s2l r"FOLD mode not implemented yet"

/-- The unknown-mode error text. -/
def msgUnknownMode (m : PyStr) : PyStr := s2l r"Unknown test merge mode: " ++ m

/-- Translation of merge_tests.  Inputs: the new-unit source (as split
lines), its parse (the top-level statement list, a parse oracle), the
Merger state constructed from the base source, the mode string and the
optional mapping.  Returns the final Merger state, the raised error if any
(the state then reflects the in-place mutations applied before the raise,
which the raising caller never observes), the merged-callable set, and the
ghost trace of Merger mutations in call order. -/
def merge_tests (newSrcLines : List PyStr) (newTree : List NewNode) (base : MergerState)
    (mode : PyStr) (mapping : Option (List (PyStr × PyStr))) :
    MergerState × Option PyStr × List ExtractedFunction × List Op :=
  let modeU := asciiUpper mode
  let acc0 : ScanAcc := ⟨base, base.imports.map (fun i => i.dump), [], [], [], [], [], []⟩
  let acc := newTree.foldl (scanNode modeU newSrcLines) acc0
  let str1 :=
    if !acc.newImports.isEmpty then
      (add_imports acc.st acc.newImports, acc.trace ++ [Op.addImports acc.newImports.length])
    else (acc.st, acc.trace)
  let st1 := str1.1
  let tr1 := str1.2
  if modeU == s2l r"ADD" then
    let o := acc.pendAdd.foldl addPhaseStep ⟨st1, none, acc.merged, tr1⟩
    (o.st, o.err, o.merged, o.trace)
  else if modeU == s2l r"APPEND" then
    if mappingFalsy mapping then (st1, some msgMapRequired, acc.merged, tr1)
    else
      let m := mapping.getD []
      let o1 := acc.pendAppend.foldl
          (fun (o : OState) p => p.2.foldl (methodAppendStep m p.1) o)
          ⟨st1, none, acc.merged, tr1⟩
      let o2 := acc.pendFnAppend.foldl (fnAppendStep m) o1
      (o2.st, o2.err, o2.merged, o2.trace)
  else if modeU == s2l r"FOLD" then
    (st1, some msgFoldNotImpl, acc.merged, tr1)
  else
    (st1, some (msgUnknownMode modeU), acc.merged, tr1)

/-!  Lemmas about the line-splitting primitives.  A well-formed buffer line
is a chunk of text without internal newlines terminated by one newline;
buffers produced by splitlines(keepends=True) on newline-terminated text
consist of such lines. -/

/-- A well-formed buffer line. -/
def IsNlLine (l : PyStr) : Prop := ∃ xs, l = xs ++ ['\n'] ∧ '\n' ∉ xs

theorem joinText_nil : joinText [] = [] := rfl

theorem joinText_cons (l : PyStr) (r : List PyStr) : joinText (l :: r) = l ++ joinText r := by
  simp [joinText]

theorem joinText_append (a b : List PyStr) : joinText (a ++ b) = joinText a ++ joinText b := by
  simp [joinText]

theorem endsWithNl_append_nl (xs : PyStr) : endsWithNl (xs ++ ['\n']) = true := by
  simp [endsWithNl]

theorem IsNlLine.endsNl {l : PyStr} (h : IsNlLine l) : endsWithNl l = true := by
  obtain ⟨xs, rfl, -⟩ := h
  exact endsWithNl_append_nl xs

theorem IsNlLine.ne_nil {l : PyStr} (h : IsNlLine l) : l ≠ [] := by
  obtain ⟨xs, rfl, -⟩ := h
  simp

theorem endsWithNl_cons_of_ne {c : Char} {t : PyStr} (ht : t ≠ []) :
    endsWithNl (c :: t) = endsWithNl t := by
  cases t with
  | nil => exact absurd rfl ht
  | cons b r => simp [endsWithNl, List.getLast?_cons_cons]

theorem splitKeepNlAux_nil (acc : List Char) :
    splitKeepNlAux [] acc = if acc.isEmpty then [] else [acc.reverse] := rfl

theorem splitKeepNlAux_cons_nl (rest : List Char) (acc : List Char) :
    splitKeepNlAux ('\n' :: rest) acc = (acc.reverse ++ ['\n']) :: splitKeepNlAux rest [] := by
  simp [splitKeepNlAux]

theorem splitKeepNlAux_cons_ne {c : Char} (hc : ¬ (c = '\n')) (rest acc : List Char) :
    splitKeepNlAux (c :: rest) acc = splitKeepNlAux rest (c :: acc) := by
  simp [splitKeepNlAux, hc]

theorem splitKeepNlAux_skip : ∀ (xs : List Char), '\n' ∉ xs → ∀ (t acc : List Char),
    splitKeepNlAux (xs ++ t) acc = splitKeepNlAux t (xs.reverse ++ acc) := by
  intro xs
  induction xs with
  | nil => intro _ t acc; simp
  | cons c r ih =>
    intro h t acc
    have hc : ¬ (c = '\n') := fun hh => h (hh ▸ List.mem_cons_self c r)
    have hr : '\n' ∉ r := fun hh => h (List.mem_cons_of_mem c hh)
    rw [List.cons_append, splitKeepNlAux_cons_ne hc, ih hr t (c :: acc)]
    simp

theorem splitKeepNlAux_append (b : List Char) :
    ∀ (a : PyStr) (acc : List Char), endsWithNl a = true →
      splitKeepNlAux (a ++ b) acc = splitKeepNlAux a acc ++ splitKeepNlAux b [] := by
  intro a
  induction a with
  | nil => intro acc ha; simp [endsWithNl] at ha
  | cons c r ih =>
    intro acc ha
    by_cases hr : r = []
    · subst hr
      have hc : c = '\n' := by simpa [endsWithNl] using ha
      subst hc
      rw [List.cons_append, List.nil_append, splitKeepNlAux_cons_nl, splitKeepNlAux_cons_nl]
      simp [splitKeepNlAux_nil]
    · have ha2 : endsWithNl r = true := by rw [← endsWithNl_cons_of_ne hr]; exact ha
      by_cases hc : c = '\n'
      · subst hc
        rw [List.cons_append, splitKeepNlAux_cons_nl, splitKeepNlAux_cons_nl, ih [] ha2]
        simp
      · rw [List.cons_append, splitKeepNlAux_cons_ne hc, splitKeepNlAux_cons_ne hc]
        exact ih (c :: acc) ha2

theorem splitKeepNl_append {a : PyStr} (b : PyStr) (ha : endsWithNl a = true) :
    splitKeepNl (a ++ b) = splitKeepNl a ++ splitKeepNl b :=
  splitKeepNlAux_append b a [] ha

theorem splitKeepNl_nlline {l : PyStr} (h : IsNlLine l) : splitKeepNl l = [l] := by
  obtain ⟨xs, rfl, hx⟩ := h
  rw [splitKeepNl, splitKeepNlAux_skip xs hx ['\n'] [], splitKeepNlAux_cons_nl]
  simp [splitKeepNlAux_nil]

theorem splitKeepNl_join_wf : ∀ (ls : List PyStr), (∀ l ∈ ls, IsNlLine l) →
    splitKeepNl (joinText ls) = ls := by
  intro ls
  induction ls with
  | nil => intro _; rfl
  | cons l r ih =>
    intro h
    have hl : IsNlLine l := h l (List.mem_cons_self l r)
    have hr : ∀ x ∈ r, IsNlLine x := fun x hx => h x (List.mem_cons_of_mem l hx)
    rw [joinText_cons, splitKeepNl_append _ hl.endsNl, splitKeepNl_nlline hl, ih hr]
    rfl

theorem joinText_splitKeepNlAux : ∀ (t acc : List Char),
    joinText (splitKeepNlAux t acc) = acc.reverse ++ t := by
  intro t
  induction t with
  | nil =>
    intro acc
    cases acc with
    | nil => rfl
    | cons c r => simp [splitKeepNlAux_nil, joinText]
  | cons c rest ih =>
    intro acc
    by_cases hc : c = '\n'
    · subst hc
      rw [splitKeepNlAux_cons_nl, joinText_cons, ih []]
      simp
    · rw [splitKeepNlAux_cons_ne hc, ih (c :: acc)]
      simp

theorem joinText_splitKeepNl (t : PyStr) : joinText (splitKeepNl t) = t := by
  simpa using joinText_splitKeepNlAux t []

theorem countNl_append (a b : PyStr) : countNl (a ++ b) = countNl a + countNl b := by
  simp [countNl, List.countP_append]

theorem countNl_cons_nl (t : PyStr) : countNl ('\n' :: t) = countNl t + 1 := by
  simp [countNl, List.countP_cons]

theorem countNl_cons_ne {c : Char} (hc : ¬ (c = '\n')) (t : PyStr) :
    countNl (c :: t) = countNl t := by
  simp [countNl, List.countP_cons, hc]

theorem length_splitKeepNlAux : ∀ (t acc : List Char),
    (splitKeepNlAux t acc).length =
      countNl t + (if endsWithNl t then 0 else if t.isEmpty then (if acc.isEmpty then 0 else 1) else 1) := by
  intro t
  induction t with
  | nil =>
    intro acc
    cases acc <;> simp [splitKeepNlAux_nil, countNl, endsWithNl]
  | cons c rest ih =>
    intro acc
    by_cases hrest : rest = []
    · subst hrest
      by_cases hc : c = '\n'
      · subst hc
        rw [splitKeepNlAux_cons_nl]
        simp [splitKeepNlAux_nil, countNl_cons_nl, countNl, endsWithNl]
      · rw [splitKeepNlAux_cons_ne hc]
        simp [splitKeepNlAux_nil, countNl_cons_ne hc, countNl, endsWithNl, hc]
    · have hwe : endsWithNl (c :: rest) = endsWithNl rest := endsWithNl_cons_of_ne hrest
      by_cases hc : c = '\n'
      · subst hc
        rw [splitKeepNlAux_cons_nl, List.length_cons, ih [], countNl_cons_nl, hwe]
        have hne : rest.isEmpty = false := by simpa using hrest
        rw [hne]
        cases hew : endsWithNl rest <;> simp
      · rw [splitKeepNlAux_cons_ne hc, ih (c :: acc), countNl_cons_ne hc, hwe]
        have hne : rest.isEmpty = false := by simpa using hrest
        rw [hne]
        simp

theorem length_splitKeepNl_endsNl {t : PyStr} (h : endsWithNl t = true) :
    (splitKeepNl t).length = countNl t := by
  rw [splitKeepNl, length_splitKeepNlAux t [], h]
  simp

/-- The five signature components match exactly iff signatures_match reports
success. -/
theorem signatures_match_true_iff (a b : PyArguments) :
    (signatures_match a b).1 = true ↔ a = b := by
  cases a
  cases b
  unfold signatures_match
  simp only [PyArguments.mk.injEq]
  split_ifs <;> simp_all

/-- C9: ExtractedFunction equality and hashing depend only on the
(class_name, func_name) pair: two identities with equal name pairs compare
equal and hash equal even when their captured source bodies (func_def) or
originating file paths differ. -/
theorem c9_nominal_identity (a b : ExtractedFunction)
    (hc : a.class_name = b.class_name) (hf : a.func_name = b.func_name) :
    efBeq a b = true ∧ efHash a = efHash b := by
  have h : efHash a = efHash b := by unfold efHash; rw [hc, hf]
  exact ⟨by simp [efBeq, h], h⟩

/-- Witness for C9 at two concrete identities with the same name pair but
different func_def and file_path. -/
theorem c9_nominal_identity_witness :
    efBeq ⟨some (s2l r"C"), .str (s2l r"m"), some (s2l r"body1"), none⟩
        ⟨some (s2l r"C"), .str (s2l r"m"), none, some (s2l r"p.py")⟩ = true ∧
      efHash ⟨some (s2l r"C"), .str (s2l r"m"), some (s2l r"body1"), none⟩ =
        efHash ⟨some (s2l r"C"), .str (s2l r"m"), none, some (s2l r"p.py")⟩ :=
  c9_nominal_identity _ _ rfl rfl

/-- C1: for a target resolvable in the target source and a new-callable
snippet parsing to a single function definition, a difference in any of the
five signature components makes append_callable_body raise the ValueError
whose message is built from the first differing component with both values
(the second output of signatures_match, which compares the components in
order), leaving the Merger state — in particular the line buffer —
byte-for-byte unchanged. -/
theorem c1_signature_gate (st : MergerState) (targetCls : Option PyStr)
    (targetName : PyStr) (snip : Snippet) (tgt : PyFunctionDef)
    (hres : resolveTarget st targetCls targetName = Except.ok tgt)
    (hne : snip.node.args ≠ tgt.args) :
    (signatures_match snip.node.args tgt.args).1 = false ∧
    append_callable_body st targetName snip targetCls =
      (st, some (msgSignaturesDiffer targetName (signatures_match snip.node.args tgt.args).2)) := by
  have hf : (signatures_match snip.node.args tgt.args).1 = false := by
    cases h : (signatures_match snip.node.args tgt.args).1
    · rfl
    · exact absurd ((signatures_match_true_iff _ _).1 h) hne
  refine ⟨hf, ?_⟩
  unfold append_callable_body
  rw [hres]
  simp [hf]

/-- A one-function target buffer used by concrete witnesses. -/
def exFnF : PyFunctionDef :=
  ⟨s2l r"f", ⟨[], [s2l r"x"], none, [], none⟩, 1, 2, [], [⟨2, 2⟩]⟩

/-- Concrete Merger state holding the single function f. -/
def exStF : MergerState :=
  ⟨[s2l r"def f(x):" ++ [nlChar], s2l r"    return x" ++ [nlChar]], [], [],
    [(s2l r"f", exFnF)]⟩

/-- A snippet whose positional arguments differ from those of f. -/
def exSnipBad : Snippet :=
  ⟨s2l r"def f(y):" ++ [nlChar] ++ s2l r"    return y" ++ [nlChar],
   ⟨s2l r"f", ⟨[], [s2l r"y"], none, [], none⟩, 1, 2, [], [⟨2, 2⟩]⟩⟩

/-- Witness for C1 at a concrete state, target and snippet. -/
theorem c1_signature_gate_witness :
    (signatures_match exSnipBad.node.args exFnF.args).1 = false ∧
    append_callable_body exStF (s2l r"f") exSnipBad none =
      (exStF, some (msgSignaturesDiffer (s2l r"f")
        (signatures_match exSnipBad.node.args exFnF.args).2)) :=
  c1_signature_gate exStF none (s2l r"f") exSnipBad exFnF rfl (by decide)

/-- C4 amended: add_methods with a class name absent from the structural
index reports the class-not-found failure only to the log and returns
without raising, leaving the Merger state — in particular the line buffer —
unchanged. -/
theorem c4_add_methods_missing_class (st : MergerState) (cname : PyStr)
    (methods : List (PyFunctionDef × PyStr))
    (h : dictFind st.cls_map cname = none) :
    add_methods st cname methods = (st, none) := by
  unfold add_methods
  rw [h]

/-- Witness for the amended C4 at a concrete state without class C. -/
theorem c4_add_methods_missing_class_witness :
    add_methods exStF (s2l r"C") [(exFnF, s2l r"    def g(self): pass" ++ [nlChar])] =
      (exStF, none) :=
  c4_add_methods_missing_class _ _ _ rfl

/-- C4 counterexample: at a concrete state whose index has no class C,
add_methods completes normally — the raised-error channel is empty rather
than a fatal class-not-found error (the buffer is indeed unchanged). -/
theorem c4_counterexample :
    (add_methods exStF (s2l r"C") [(exFnF, s2l r"    def g(self): pass" ++ [nlChar])]).2 = none ∧
    (add_methods exStF (s2l r"C") [(exFnF, s2l r"    def g(self): pass" ++ [nlChar])]).1 = exStF :=
  ⟨rfl, rfl⟩

/-- C10: in APPEND mode merge_tests raises the MissingMapping error both
when the mapping is absent and when it is supplied but empty; an empty
mapping never yields a successful merge. -/
theorem c10_empty_mapping (newSrcLines : List PyStr) (newTree : List NewNode)
    (base : MergerState) :
    (merge_tests newSrcLines newTree base (s2l r"APPEND") (some [])).2.1 = some msgMapRequired ∧
    (merge_tests newSrcLines newTree base (s2l r"APPEND") none).2.1 = some msgMapRequired := by
  have hA : asciiUpper (s2l r"APPEND") = s2l r"APPEND" := by decide
  have h1 : (s2l r"APPEND" == s2l r"ADD") = false := by decide
  have h2 : (s2l r"APPEND" == s2l r"APPEND") = true := by decide
  constructor <;> (unfold merge_tests; rw [hA]; simp [h1, h2, mappingFalsy])

/-- One APPEND-mode scan step performs no Merger mutation: state, merged
set and trace are untouched (callables are only queued). -/
theorem scanNode_append_step (newSrcLines : List PyStr) (acc : ScanAcc) (n : NewNode) :
    (scanNode (s2l r"APPEND") newSrcLines acc n).st = acc.st ∧
    (scanNode (s2l r"APPEND") newSrcLines acc n).merged = acc.merged ∧
    (scanNode (s2l r"APPEND") newSrcLines acc n).trace = acc.trace ∧
    (scanNode (s2l r"APPEND") newSrcLines acc n).newImports.length ≥ acc.newImports.length := by
  have h1 : (s2l r"APPEND" == s2l r"ADD") = false := by decide
  have h2 : (s2l r"APPEND" == s2l r"APPEND") = true := by decide
  cases n <;> simp only [scanNode, h1, h2] <;>
    first
    | (split_ifs <;> simp_all)
    | simp

/-- The whole APPEND-mode scan performs no Merger mutation. -/
theorem scan_append_fold (newSrcLines : List PyStr) :
    ∀ (nodes : List NewNode) (acc : ScanAcc),
      (nodes.foldl (scanNode (s2l r"APPEND") newSrcLines) acc).st = acc.st ∧
      (nodes.foldl (scanNode (s2l r"APPEND") newSrcLines) acc).merged = acc.merged ∧
      (nodes.foldl (scanNode (s2l r"APPEND") newSrcLines) acc).trace = acc.trace := by
  intro nodes
  induction nodes with
  | nil => intro acc; exact ⟨rfl, rfl, rfl⟩
  | cons n r ih =>
    intro acc
    obtain ⟨h1, h2, h3, -⟩ := scanNode_append_step newSrcLines acc n
    obtain ⟨g1, g2, g3⟩ := ih (scanNode (s2l r"APPEND") newSrcLines acc n)
    exact ⟨g1.trans h1, g2.trans h2, g3.trans h3⟩

/-- C5 amended: in APPEND mode with a falsy mapping merge_tests raises the
MissingMapping error after inserting any queued new imports but before any
class/function/method processing: every performed mutation in the trace is
an import insertion, and when the trace is empty (no new imports) the state
is byte-for-byte the base.  (The raise propagates, so a caller never
observes the mutated buffer, but the buffer has been mutated.) -/
theorem c5_missing_mapping (newSrcLines : List PyStr) (newTree : List NewNode)
    (base : MergerState) (mapping : Option (List (PyStr × PyStr)))
    (h : mappingFalsy mapping = true) :
    (merge_tests newSrcLines newTree base (s2l r"APPEND") mapping).2.1 = some msgMapRequired ∧
    (∀ op ∈ (merge_tests newSrcLines newTree base (s2l r"APPEND") mapping).2.2.2,
      ∃ n, op = Op.addImports n) ∧
    ((merge_tests newSrcLines newTree base (s2l r"APPEND") mapping).2.2.2 = [] →
      (merge_tests newSrcLines newTree base (s2l r"APPEND") mapping).1 = base) := by
  have hA : asciiUpper (s2l r"APPEND") = s2l r"APPEND" := by decide
  have h1 : (s2l r"APPEND" == s2l r"ADD") = false := by decide
  have h2 : (s2l r"APPEND" == s2l r"APPEND") = true := by decide
  obtain ⟨hst, -, htr⟩ := scan_append_fold newSrcLines newTree
      ⟨base, base.imports.map (fun i => i.dump), [], [], [], [], [], []⟩
  unfold merge_tests
  rw [hA]
  simp only [h1, h2, h, if_true, Bool.false_eq_true, if_false]
  by_cases him : (newTree.foldl (scanNode (s2l r"APPEND") newSrcLines)
      ⟨base, base.imports.map (fun i => i.dump), [], [], [], [], [], []⟩).newImports.isEmpty
  · simp only [him, Bool.not_true, Bool.false_eq_true, if_false]
    refine ⟨trivial, ?_, fun _ => hst⟩
    rw [htr]
    intro op hop
    exact absurd hop (List.not_mem_nil op)
  · simp only [him, Bool.not_false, if_true]
    refine ⟨trivial, ?_, ?_⟩
    · rw [htr]
      intro op hop
      simp only [List.nil_append] at hop
      rcases List.mem_singleton.mp hop with rfl
      exact ⟨_, rfl⟩
    · intro hcon
      rw [htr] at hcon
      simp at hcon

/-- Base state for concrete counterexamples: a single pass statement. -/
def exBase1 : MergerState := ⟨[s2l r"pass" ++ [nlChar]], [], [], []⟩

/-- C5 counterexample: one new import merged in APPEND mode without a
mapping: the MissingMapping error is raised, yet the line buffer has
already been mutated (the import was inserted before the raise). -/
theorem c5_counterexample :
    (merge_tests [s2l r"import os" ++ [nlChar]] [.imp (s2l r"Import os") 1 1] exBase1
      (s2l r"APPEND") none).2.1 = some msgMapRequired ∧
    (merge_tests [s2l r"import os" ++ [nlChar]] [.imp (s2l r"Import os") 1 1] exBase1
      (s2l r"APPEND") none).1.lines ≠ exBase1.lines := by
  constructor
  · decide
  · decide

/-- Witness for the amended C5 (discharging the falsy-mapping hypothesis at
the empty mapping). -/
theorem c5_missing_mapping_witness :
    (merge_tests [s2l r"import os" ++ [nlChar]] [.imp (s2l r"Import os") 1 1] exBase1
      (s2l r"APPEND") (some [])).2.1 = some msgMapRequired ∧
    (∀ op ∈ (merge_tests [s2l r"import os" ++ [nlChar]] [.imp (s2l r"Import os") 1 1] exBase1
      (s2l r"APPEND") (some [])).2.2.2, ∃ n, op = Op.addImports n) ∧
    ((merge_tests [s2l r"import os" ++ [nlChar]] [.imp (s2l r"Import os") 1 1] exBase1
      (s2l r"APPEND") (some [])).2.2.2 = [] →
      (merge_tests [s2l r"import os" ++ [nlChar]] [.imp (s2l r"Import os") 1 1] exBase1
      (s2l r"APPEND") (some [])).1 = exBase1) :=
  c5_missing_mapping _ _ exBase1 (some []) rfl

/-!  Step lemmas for the APPEND-phase mapping folds (used by C6). -/

theorem methodAppendStep_absorb (m : List (PyStr × PyStr)) (srcCls : PyStr)
    (acc : OState) (entry : PyFunctionDef × PyStr) (he : acc.err.isSome = true) :
    methodAppendStep m srcCls acc entry = acc := by
  simp [methodAppendStep, he]

theorem fnAppendStep_absorb (m : List (PyStr × PyStr)) (acc : OState)
    (entry : PyStr × (PyFunctionDef × PyStr)) (he : acc.err.isSome = true) :
    fnAppendStep m acc entry = acc := by
  simp [fnAppendStep, he]

theorem methodInnerFold_absorb (m : List (PyStr × PyStr)) (srcCls : PyStr) :
    ∀ (entries : List (PyFunctionDef × PyStr)) (o : OState), o.err.isSome = true →
      entries.foldl (methodAppendStep m srcCls) o = o := by
  intro entries
  induction entries with
  | nil => intro o _; rfl
  | cons e r ih =>
    intro o ho
    simp only [List.foldl_cons, methodAppendStep_absorb m srcCls o e ho]
    exact ih o ho

theorem methodFold_absorb (m : List (PyStr × PyStr)) :
    ∀ (pend : List (PyStr × List (PyFunctionDef × PyStr))) (o : OState), o.err.isSome = true →
      pend.foldl (fun (o : OState) p => p.2.foldl (methodAppendStep m p.1) o) o = o := by
  intro pend
  induction pend with
  | nil => intro o _; rfl
  | cons e r ih =>
    intro o ho
    simp only [List.foldl_cons, methodInnerFold_absorb m e.1 e.2 o ho]
    exact ih o ho

theorem fnFold_absorb (m : List (PyStr × PyStr)) :
    ∀ (entries : List (PyStr × (PyFunctionDef × PyStr))) (o : OState), o.err.isSome = true →
      entries.foldl (fnAppendStep m) o = o := by
  intro entries
  induction entries with
  | nil => intro o _; rfl
  | cons e r ih =>
    intro o ho
    simp only [List.foldl_cons, fnAppendStep_absorb m o e ho]
    exact ih o ho

/-- Raising target resolution inside append_callable_body: a missing target
class/method/function raises that error with the state unchanged. -/
theorem append_callable_body_resolve_error (st : MergerState) (targetName : PyStr)
    (snip : Snippet) (targetCls : Option PyStr) (e : PyStr)
    (h : resolveTarget st targetCls targetName = Except.error e) :
    append_callable_body st targetName snip targetCls = (st, some e) := by
  unfold append_callable_body
  rw [h]

/-- C6: APPEND-mode mapping entries are resolved independently.  A method
entry whose qualified name is absent from the mapping, or whose mapped
value lacks the Class.method shape, is skipped (state, merged set and trace
unchanged) and processing continues; a function entry whose name is absent
or whose mapped value is dotted is likewise skipped; but once
append_callable_body raises — in particular when the target is missing
from the target source (resolution error) or the signatures mismatch — the
error is stored and every remaining entry of both folds is a no-op, so the
error propagates out of the entire merge. -/
theorem c6_mapping_entry_resolution :
    (∀ (m : List (PyStr × PyStr)) (srcCls : PyStr) (acc : OState)
        (entry : PyFunctionDef × PyStr), acc.err = none →
      dictFind m (srcCls ++ ['.'] ++ entry.1.name) = none →
      methodAppendStep m srcCls acc entry = acc) ∧
    (∀ (m : List (PyStr × PyStr)) (srcCls : PyStr) (acc : OState)
        (entry : PyFunctionDef × PyStr) (tfq : PyStr), acc.err = none →
      dictFind m (srcCls ++ ['.'] ++ entry.1.name) = some tfq → splitDot1 tfq = none →
      methodAppendStep m srcCls acc entry = acc) ∧
    (∀ (m : List (PyStr × PyStr)) (srcCls : PyStr) (acc : OState)
        (entry : PyFunctionDef × PyStr) (tfq : PyStr) (pq : PyStr × PyStr)
        (st2 : MergerState) (e : PyStr), acc.err = none →
      dictFind m (srcCls ++ ['.'] ++ entry.1.name) = some tfq → splitDot1 tfq = some pq →
      append_callable_body acc.st pq.2 ⟨entry.2, relativizeFn entry.1⟩ (some pq.1) = (st2, some e) →
      methodAppendStep m srcCls acc entry = { acc with st := st2, err := some e }) ∧
    (∀ (st : MergerState) (targetName : PyStr) (snip : Snippet) (targetCls : Option PyStr)
        (e : PyStr), resolveTarget st targetCls targetName = Except.error e →
      append_callable_body st targetName snip targetCls = (st, some e)) ∧
    (∀ (m : List (PyStr × PyStr)) (pend : List (PyStr × List (PyFunctionDef × PyStr)))
        (o : OState), o.err.isSome = true →
      pend.foldl (fun (o : OState) p => p.2.foldl (methodAppendStep m p.1) o) o = o) ∧
    (∀ (m : List (PyStr × PyStr)) (entries : List (PyStr × (PyFunctionDef × PyStr)))
        (o : OState), o.err.isSome = true →
      entries.foldl (fnAppendStep m) o = o) ∧
    (∀ (m : List (PyStr × PyStr)) (acc : OState) (entry : PyStr × (PyFunctionDef × PyStr)),
      acc.err = none → dictFind m entry.1 = none → fnAppendStep m acc entry = acc) ∧
    (∀ (m : List (PyStr × PyStr)) (acc : OState) (entry : PyStr × (PyFunctionDef × PyStr))
        (tfn : PyStr), acc.err = none → dictFind m entry.1 = some tfn →
      tfn.contains '.' = true → fnAppendStep m acc entry = acc) ∧
    (∀ (m : List (PyStr × PyStr)) (acc : OState) (entry : PyStr × (PyFunctionDef × PyStr))
        (tfn : PyStr) (st2 : MergerState) (e : PyStr), acc.err = none →
      dictFind m entry.1 = some tfn → tfn.contains '.' = false →
      append_callable_body acc.st tfn ⟨entry.2.2, relativizeFn entry.2.1⟩ none = (st2, some e) →
      fnAppendStep m acc entry = { acc with st := st2, err := some e }) := by
  refine ⟨?_, ?_, ?_, ?_, ?_, ?_, ?_, ?_, ?_⟩
  · intro m srcCls acc entry he h
    have hx : srcCls ++ ['.'] ++ entry.1.name = srcCls ++ '.' :: entry.1.name := by simp
    rw [hx] at h
    simp [methodAppendStep, he, h]
  · intro m srcCls acc entry tfq he h hs
    have hx : srcCls ++ ['.'] ++ entry.1.name = srcCls ++ '.' :: entry.1.name := by simp
    rw [hx] at h
    simp [methodAppendStep, he, h, hs]
  · intro m srcCls acc entry tfq pq st2 e he h hs ha
    have hx : srcCls ++ ['.'] ++ entry.1.name = srcCls ++ '.' :: entry.1.name := by simp
    rw [hx] at h
    simp [methodAppendStep, he, h, hs, ha]
  · intro st targetName snip targetCls e h
    exact append_callable_body_resolve_error st targetName snip targetCls e h
  · exact fun m pend o ho => methodFold_absorb m pend o ho
  · exact fun m entries o ho => fnFold_absorb m entries o ho
  · intro m acc entry he h
    simp [fnAppendStep, he, h]
  · intro m acc entry tfn he h hd
    have hd2 : '.' ∈ tfn := by simpa using hd
    simp [fnAppendStep, he, h, hd2]
  · intro m acc entry tfn st2 e he h hd ha
    have hd2 : '.' ∉ tfn := by simpa using hd
    simp [fnAppendStep, he, h, hd2, ha]

/-- Concrete orchestrator state for the C6 witness. -/
def exOSt : OState := ⟨exStF, none, [], []⟩

/-- Witness for C6, instantiating the skip conjunct (a method entry with no
mapping key), the malformed-shape conjunct, and the fatal conjunct (the
mapped target class is missing, so resolution raises and the error is
stored). -/
theorem c6_mapping_entry_resolution_witness :
    methodAppendStep [(s2l r"A.b", s2l r"C.d")] (s2l r"X") exOSt
      (exFnF, exSnipBad.text) = exOSt ∧
    methodAppendStep [(s2l r"X.f", s2l r"nodot")] (s2l r"X") exOSt
      (exFnF, exSnipBad.text) = exOSt ∧
    methodAppendStep [(s2l r"X.f", s2l r"C.m")] (s2l r"X") exOSt
      (exFnF, exSnipBad.text) =
      { exOSt with st := exStF, err := some (msgTargetClassNotFound (s2l r"C")) } := by
  refine ⟨?_, ?_, ?_⟩
  · exact c6_mapping_entry_resolution.1 _ _ exOSt _ rfl (by decide)
  · exact c6_mapping_entry_resolution.2.1 _ _ exOSt _ (s2l r"nodot") rfl (by decide) (by decide)
  · exact c6_mapping_entry_resolution.2.2.1 _ _ exOSt _ (s2l r"C.m") (s2l r"C", s2l r"m")
      exStF (msgTargetClassNotFound (s2l r"C")) rfl (by decide) (by decide) rfl

/-!  Trace-shape lemmas (used by C8). -/

theorem scanNode_trace (mode : PyStr) (newSrcLines : List PyStr) (acc : ScanAcc)
    (n : NewNode) :
    ∃ t, (scanNode mode newSrcLines acc n).trace = acc.trace ++ t ∧
      ∀ op ∈ t, ∃ nm, op = Op.addClassOrFunc nm := by
  cases n with
  | imp dump ln el =>
    simp only [scanNode]
    split_ifs <;> (refine ⟨[], ?_, ?_⟩ <;> simp)
  | cls c =>
    simp only [scanNode]
    split_ifs <;>
      first
      | (refine ⟨[], ?_, ?_⟩ <;> simp <;> done)
      | (refine ⟨[Op.addClassOrFunc c.name], ?_, ?_⟩ <;> simp)
  | fn f =>
    simp only [scanNode]
    split_ifs <;>
      first
      | (refine ⟨[], ?_, ?_⟩ <;> simp <;> done)
      | (refine ⟨[Op.addClassOrFunc f.name], ?_, ?_⟩ <;> simp)
  | other ln el => exact ⟨[], by simp [scanNode]⟩

theorem scan_fold_trace (mode : PyStr) (newSrcLines : List PyStr) :
    ∀ (nodes : List NewNode) (acc : ScanAcc),
      ∃ t, (nodes.foldl (scanNode mode newSrcLines) acc).trace = acc.trace ++ t ∧
        ∀ op ∈ t, ∃ nm, op = Op.addClassOrFunc nm := by
  intro nodes
  induction nodes with
  | nil => intro acc; exact ⟨[], by simp⟩
  | cons n r ih =>
    intro acc
    obtain ⟨t1, h1, p1⟩ := scanNode_trace mode newSrcLines acc n
    obtain ⟨t2, h2, p2⟩ := ih (scanNode mode newSrcLines acc n)
    refine ⟨t1 ++ t2, ?_, ?_⟩
    · rw [List.foldl_cons] at *
      rw [h2, h1, List.append_assoc]
    · intro op hop
      rcases List.mem_append.mp hop with h | h
      · exact p1 op h
      · exact p2 op h

theorem ofold_trace {σ : Type} (f : OState → σ → OState) (P : Op → Prop)
    (hf : ∀ (o : OState) (x : σ), ∃ t, (f o x).trace = o.trace ++ t ∧ ∀ op ∈ t, P op) :
    ∀ (xs : List σ) (o : OState),
      ∃ t, (xs.foldl f o).trace = o.trace ++ t ∧ ∀ op ∈ t, P op := by
  intro xs
  induction xs with
  | nil => intro o; exact ⟨[], by simp⟩
  | cons x r ih =>
    intro o
    obtain ⟨t1, h1, p1⟩ := hf o x
    obtain ⟨t2, h2, p2⟩ := ih (f o x)
    refine ⟨t1 ++ t2, ?_, ?_⟩
    · rw [List.foldl_cons, h2, h1, List.append_assoc]
    · intro op hop
      rcases List.mem_append.mp hop with h | h
      · exact p1 op h
      · exact p2 op h

theorem addPhaseStep_trace (acc : OState) (entry : PyStr × List (PyFunctionDef × PyStr)) :
    ∃ t, (addPhaseStep acc entry).trace = acc.trace ++ t ∧
      ∀ op ∈ t, ∃ c n, op = Op.addMethods c n := by
  cases hfind : dictFind acc.st.cls_map entry.1 with
  | none => exact ⟨[], by simp [addPhaseStep, hfind]⟩
  | some cls =>
    by_cases hta : (entry.2.filter (fun p => !(nodeInNames p.1 (methNamesOf cls)))).isEmpty
    · exact ⟨[], by simp [addPhaseStep, hfind, hta]⟩
    · refine ⟨[Op.addMethods entry.1
        (entry.2.filter (fun p => !(nodeInNames p.1 (methNamesOf cls)))).length], ?_, ?_⟩
      · simp [addPhaseStep, hfind, hta]
      · intro op hop
        rcases List.mem_singleton.mp hop with rfl
        exact ⟨entry.1, _, rfl⟩

theorem methodAppendStep_trace (m : List (PyStr × PyStr)) (srcCls : PyStr) (acc : OState)
    (entry : PyFunctionDef × PyStr) :
    ∃ t, (methodAppendStep m srcCls acc entry).trace = acc.trace ++ t ∧
      ∀ op ∈ t, ∃ c tn, op = Op.appendBody (some c) tn := by
  by_cases he : acc.err.isSome
  · refine ⟨[], ?_, ?_⟩ <;> simp [methodAppendStep, he]
  · cases hfind : dictFind m (srcCls ++ '.' :: entry.1.name) with
    | none => refine ⟨[], ?_, ?_⟩ <;> simp [methodAppendStep, he, hfind]
    | some tfq =>
      cases hs : splitDot1 tfq with
      | none => refine ⟨[], ?_, ?_⟩ <;> simp [methodAppendStep, he, hfind, hs]
      | some pq =>
        cases ha : append_callable_body acc.st pq.2 ⟨entry.2, relativizeFn entry.1⟩ (some pq.1) with
        | mk st2 eo =>
          cases eo with
          | none =>
            refine ⟨[Op.appendBody (some pq.1) pq.2], ?_, ?_⟩
            · simp [methodAppendStep, he, hfind, hs, ha]
            · intro op hop
              rcases List.mem_singleton.mp hop with rfl
              exact ⟨pq.1, pq.2, rfl⟩
          | some e => refine ⟨[], ?_, ?_⟩ <;> simp [methodAppendStep, he, hfind, hs, ha]

theorem fnAppendStep_trace (m : List (PyStr × PyStr)) (acc : OState)
    (entry : PyStr × (PyFunctionDef × PyStr)) :
    ∃ t, (fnAppendStep m acc entry).trace = acc.trace ++ t ∧
      ∀ op ∈ t, ∃ tn, op = Op.appendBody none tn := by
  by_cases he : acc.err.isSome
  · refine ⟨[], ?_, ?_⟩ <;> simp [fnAppendStep, he]
  · cases hfind : dictFind m entry.1 with
    | none => refine ⟨[], ?_, ?_⟩ <;> simp [fnAppendStep, he, hfind]
    | some tfn =>
      by_cases hd : '.' ∈ tfn
      · refine ⟨[], ?_, ?_⟩ <;> simp [fnAppendStep, he, hfind, hd]
      · cases ha : append_callable_body acc.st tfn ⟨entry.2.2, relativizeFn entry.2.1⟩ none with
        | mk st2 eo =>
          cases eo with
          | none =>
            refine ⟨[Op.appendBody none tfn], ?_, ?_⟩
            · simp [fnAppendStep, he, hfind, hd, ha]
            · intro op hop
              rcases List.mem_singleton.mp hop with rfl
              exact ⟨tfn, rfl⟩
          | some e => refine ⟨[], ?_, ?_⟩ <;> simp [fnAppendStep, he, hfind, hd, ha]

theorem methodInnerFold_trace (m : List (PyStr × PyStr)) (srcCls : PyStr)
    (entries : List (PyFunctionDef × PyStr)) (o : OState) :
    ∃ t, (entries.foldl (methodAppendStep m srcCls) o).trace = o.trace ++ t ∧
      ∀ op ∈ t, ∃ c tn, op = Op.appendBody (some c) tn :=
  ofold_trace (methodAppendStep m srcCls) _ (methodAppendStep_trace m srcCls) entries o

theorem methodFold_trace (m : List (PyStr × PyStr))
    (pend : List (PyStr × List (PyFunctionDef × PyStr))) (o : OState) :
    ∃ t, (pend.foldl (fun (o : OState) p => p.2.foldl (methodAppendStep m p.1) o) o).trace =
      o.trace ++ t ∧ ∀ op ∈ t, ∃ c tn, op = Op.appendBody (some c) tn :=
  ofold_trace _ _ (fun o p => methodInnerFold_trace m p.1 p.2 o) pend o

/-- Combined trace shape of the APPEND-phase folds: method-body appends
first, then function-body appends. -/
theorem append_phase_trace (m : List (PyStr × PyStr))
    (pend : List (PyStr × List (PyFunctionDef × PyStr)))
    (pendF : List (PyStr × (PyFunctionDef × PyStr))) (o : OState) :
    ∃ tm tf,
      (pendF.foldl (fnAppendStep m)
        (pend.foldl (fun (o : OState) p => p.2.foldl (methodAppendStep m p.1) o) o)).trace =
        o.trace ++ tm ++ tf ∧
      (∀ op ∈ tm, ∃ c tn, op = Op.appendBody (some c) tn) ∧
      (∀ op ∈ tf, ∃ tn, op = Op.appendBody none tn) := by
  obtain ⟨tm, htm, ptm⟩ := methodFold_trace m pend o
  obtain ⟨tf, htf, ptf⟩ := ofold_trace (fnAppendStep m) _ (fnAppendStep_trace m) pendF
    (pend.foldl (fun (o : OState) p => p.2.foldl (methodAppendStep m p.1) o) o)
  exact ⟨tm, tf, by rw [htf, htm, List.append_assoc], ptm, ptf⟩

/-- C8 amended: the merge-call trace is deterministic, but in ADD mode the
scan-time class/function insertions happen before the queued-import
insertion (imports are spliced only after the walk), with method additions
closing the call; in APPEND mode the import insertion does come first,
followed by all method-body appends and then all function-body appends
(methods are resolved before functions). -/
theorem c8_operation_order (newSrcLines : List PyStr) (newTree : List NewNode)
    (base : MergerState) (mapping : Option (List (PyStr × PyStr))) :
    (∃ ts ti tm,
      (merge_tests newSrcLines newTree base (s2l r"ADD") none).2.2.2 = ts ++ ti ++ tm ∧
      (∀ op ∈ ts, ∃ nm, op = Op.addClassOrFunc nm) ∧
      (∀ op ∈ ti, ∃ n, op = Op.addImports n) ∧
      (∀ op ∈ tm, ∃ c n, op = Op.addMethods c n)) ∧
    (∃ ti tm tf,
      (merge_tests newSrcLines newTree base (s2l r"APPEND") mapping).2.2.2 = ti ++ tm ++ tf ∧
      (∀ op ∈ ti, ∃ n, op = Op.addImports n) ∧
      (∀ op ∈ tm, ∃ c tn, op = Op.appendBody (some c) tn) ∧
      (∀ op ∈ tf, ∃ tn, op = Op.appendBody none tn)) := by
  constructor
  · have hA : asciiUpper (s2l r"ADD") = s2l r"ADD" := by decide
    have h2 : (s2l r"ADD" == s2l r"ADD") = true := by decide
    unfold merge_tests
    rw [hA]
    simp only [h2, if_true]
    set A := newTree.foldl (scanNode (s2l r"ADD") newSrcLines)
      ⟨base, base.imports.map (fun i => i.dump), [], [], [], [], [], []⟩ with hAcc
    obtain ⟨ts, hts, pts⟩ := scan_fold_trace (s2l r"ADD") newSrcLines newTree
      ⟨base, base.imports.map (fun i => i.dump), [], [], [], [], [], []⟩
    rw [← hAcc] at hts
    simp only [List.nil_append] at hts
    by_cases him : A.newImports.isEmpty
    · simp only [him, Bool.not_true, Bool.false_eq_true, if_false]
      obtain ⟨tm, htm, ptm⟩ := ofold_trace addPhaseStep _ addPhaseStep_trace
        A.pendAdd ⟨A.st, none, A.merged, A.trace⟩
      refine ⟨ts, [], tm, ?_, pts, by simp, ptm⟩
      rw [htm, hts]
      simp
    · simp only [him, Bool.not_false, if_true]
      obtain ⟨tm, htm, ptm⟩ := ofold_trace addPhaseStep _ addPhaseStep_trace
        A.pendAdd ⟨add_imports A.st A.newImports, none, A.merged,
          A.trace ++ [Op.addImports A.newImports.length]⟩
      refine ⟨ts, [Op.addImports A.newImports.length], tm, ?_, pts, ?_, ptm⟩
      · rw [htm, hts]
      · intro op hop
        rcases List.mem_singleton.mp hop with rfl
        exact ⟨_, rfl⟩
  · have hA : asciiUpper (s2l r"APPEND") = s2l r"APPEND" := by decide
    have h1 : (s2l r"APPEND" == s2l r"ADD") = false := by decide
    have h2 : (s2l r"APPEND" == s2l r"APPEND") = true := by decide
    unfold merge_tests
    rw [hA]
    simp only [h1, h2, Bool.false_eq_true, if_false, if_true]
    set A := newTree.foldl (scanNode (s2l r"APPEND") newSrcLines)
      ⟨base, base.imports.map (fun i => i.dump), [], [], [], [], [], []⟩ with hAcc
    obtain ⟨-, -, htr⟩ := scan_append_fold newSrcLines newTree
      ⟨base, base.imports.map (fun i => i.dump), [], [], [], [], [], []⟩
    rw [← hAcc] at htr
    by_cases him : A.newImports.isEmpty
    · simp only [him, Bool.not_true, Bool.false_eq_true, if_false]
      by_cases hmap : mappingFalsy mapping
      · simp only [hmap, if_true]
        exact ⟨[], [], [], by simp [htr], by simp, by simp, by simp⟩
      · simp only [hmap, Bool.false_eq_true, if_false]
        obtain ⟨tm, tf, htmf, ptm, ptf⟩ := append_phase_trace (mapping.getD [])
          A.pendAppend A.pendFnAppend ⟨A.st, none, A.merged, A.trace⟩
        exact ⟨[], tm, tf, by rw [htmf]; simp [htr], by simp, ptm, ptf⟩
    · simp only [him, Bool.not_false, if_true]
      by_cases hmap : mappingFalsy mapping
      · simp only [hmap, if_true]
        refine ⟨[Op.addImports A.newImports.length], [], [], by simp [htr], ?_, by simp, by simp⟩
        intro op hop
        rcases List.mem_singleton.mp hop with rfl
        exact ⟨_, rfl⟩
      · simp only [hmap, Bool.false_eq_true, if_false]
        obtain ⟨tm, tf, htmf, ptm, ptf⟩ := append_phase_trace (mapping.getD [])
          A.pendAppend A.pendFnAppend ⟨add_imports A.st A.newImports, none, A.merged,
            A.trace ++ [Op.addImports A.newImports.length]⟩
        refine ⟨[Op.addImports A.newImports.length], tm, tf, ?_, ?_, ptm, ptf⟩
        · rw [htmf]
          simp [htr]
        · intro op hop
          rcases List.mem_singleton.mp hop with rfl
          exact ⟨_, rfl⟩

/-- Function node of the C8 counterexample new unit. -/
def exFnG : PyFunctionDef := ⟨s2l r"g", ⟨[], [], none, [], none⟩, 1, 2, [], [⟨2, 2⟩]⟩

/-- New-unit source of the C8 counterexample: a new function followed by a
new import. -/
def exSrcG : List PyStr :=
  [s2l r"def g():" ++ [nlChar], s2l r"    pass" ++ [nlChar], s2l r"import os" ++ [nlChar]]

/-- C8 counterexample: in ADD mode the new function is spliced during the
scan and the queued import only after the walk, so the trace holds an
insertion of imports temporally after a function insertion — refuting the
claimed "imports are always inserted before classes/functions" ordering of
operations. -/
theorem c8_counterexample :
    (merge_tests exSrcG [.fn exFnG, .imp (s2l r"Import os") 3 3] exBase1
      (s2l r"ADD") none).2.2.2 = [Op.addClassOrFunc (s2l r"g"), Op.addImports 1] ∧
    ¬ (∀ (i j ni : Nat) (nm : PyStr),
        (merge_tests exSrcG [.fn exFnG, .imp (s2l r"Import os") 3 3] exBase1
          (s2l r"ADD") none).2.2.2.get? i = some (Op.addImports ni) →
        (merge_tests exSrcG [.fn exFnG, .imp (s2l r"Import os") 3 3] exBase1
          (s2l r"ADD") none).2.2.2.get? j = some (Op.addClassOrFunc nm) →
        i < j) := by
  constructor
  · decide
  · intro h
    have := h 1 0 1 (s2l r"g") (by decide) (by decide)
    omega

/-- Method, class and base state of the C3 failing input: the base already
holds class C with method test_a, and the new unit is the identical class. -/
def exMethA : PyFunctionDef :=
  ⟨s2l r"test_a", ⟨[], [s2l r"self"], none, [], none⟩, 2, 3, [], [⟨3, 3⟩]⟩

/-- The class node shared by the base index and the new unit. -/
def exClsC : PyClassDef := ⟨s2l r"C", 1, 3, [], [.meth exMethA]⟩

/-- Source text of both the base and the new unit for C3. -/
def exSrcC : List PyStr :=
  [s2l r"class C:" ++ [nlChar], s2l r"    def test_a(self):" ++ [nlChar],
   s2l r"        pass" ++ [nlChar]]

/-- Base Merger state for C3. -/
def exBaseC : MergerState := ⟨exSrcC, [], [(s2l r"C", exClsC)], []⟩

/-- C3 code bug at a concrete failing input: merging a new unit whose class
C carries only the already-present method test_a is not a no-op — the
ADD-mode presence filter unpacks its (node, snippet) tuples as
(name, snippet), so the membership test compares an AST node against the
name set and never filters, and test_a is re-inserted; a second merge of
the same unit into the result inserts it yet again, refuting idempotence. -/
theorem c3_duplicate_method_bug :
    (merge_tests exSrcC [.cls exClsC] exBaseC (s2l r"ADD") none).2.2.2 =
      [Op.addMethods (s2l r"C") 1] ∧
    joinText (merge_tests exSrcC [.cls exClsC] exBaseC (s2l r"ADD") none).1.lines =
      joinText exSrcC ++ [nlChar] ++ s2l r"    def test_a(self):" ++ [nlChar]
        ++ s2l r"        pass" ++ [nlChar] ∧
    (merge_tests exSrcC [.cls exClsC]
        (merge_tests exSrcC [.cls exClsC] exBaseC (s2l r"ADD") none).1
        (s2l r"ADD") none).2.2.2 = [Op.addMethods (s2l r"C") 1] := by
  refine ⟨?_, ?_, ?_⟩ <;> decide

/-!  Refresh and splice lemmas for well-formed buffers (used by C2/C7). -/

/-- A payload element acceptable to the refresh lemmas: newline-terminated
or empty. -/
def NlChunk (e : PyStr) : Prop := endsWithNl e = true ∨ e = []

theorem IsNlLine.chunk {l : PyStr} (h : IsNlLine l) : NlChunk l := Or.inl h.endsNl

theorem endsWithNl_append_right {b : PyStr} (a : PyStr) (hb : b ≠ []) :
    endsWithNl (a ++ b) = endsWithNl b := by
  simp [endsWithNl, List.getLast?_append_of_ne_nil a hb]

theorem joinText_chunks : ∀ (ls : List PyStr), (∀ l ∈ ls, NlChunk l) →
    NlChunk (joinText ls) := by
  intro ls
  induction ls with
  | nil => intro _; exact Or.inr rfl
  | cons l r ih =>
    intro h
    have hl : NlChunk l := h l (List.mem_cons_self l r)
    have hr : NlChunk (joinText r) := ih (fun x hx => h x (List.mem_cons_of_mem l hx))
    rw [joinText_cons]
    rcases hr with he | he
    · left
      have : joinText r ≠ [] := by
        intro hc
        rw [hc] at he
        simp [endsWithNl] at he
      rw [endsWithNl_append_right l this]
      exact he
    · rw [he, List.append_nil]
      exact hl

theorem normalizeLine_chunk {e : PyStr} (h : NlChunk e) : normalizeLine e = e := by
  rcases h with h | rfl
  · simp [normalizeLine, h]
  · rfl

theorem refreshText_chunks (ls : List PyStr) (h : ∀ l ∈ ls, NlChunk l)
    (hc : stripWs (joinText ls) ≠ []) :
    refreshText ls = joinText ls := by
  have hmap : ls.map normalizeLine = ls := by
    have h2 : ∀ l ∈ ls, normalizeLine l = id l := fun l hl => normalizeLine_chunk (h l hl)
    rw [List.map_congr_left h2, List.map_id]
  unfold refreshText
  rw [hmap]
  rcases joinText_chunks ls h with he | he
  · simp [he]
  · rw [he] at hc
    exact absurd rfl hc

theorem applyRefresh_chunks (ls : List PyStr) (st2 : MergerState)
    (h : ∀ l ∈ ls, NlChunk l) (hc : stripWs (joinText ls) ≠ []) :
    applyRefresh ls st2 =
      ⟨splitKeepNl (joinText ls), st2.imports, st2.cls_map, st2.fn_map⟩ := by
  have hemp : (stripWs (joinText ls)).isEmpty = false := by
    cases hse : (stripWs (joinText ls)).isEmpty
    · rfl
    · exact absurd (List.isEmpty_iff.mp hse) hc
  unfold applyRefresh
  rw [hemp]
  simp [refreshText_chunks ls h hc]

theorem splitKeepNl_append_chunk {a : PyStr} (b : PyStr) (ha : NlChunk a) :
    splitKeepNl (a ++ b) = splitKeepNl a ++ splitKeepNl b := by
  rcases ha with h | rfl
  · exact splitKeepNl_append b h
  · rfl

theorem length_splitKeepNl_chunk {t : PyStr} (h : NlChunk t) :
    (splitKeepNl t).length = countNl t := by
  rcases h with h | rfl
  · exact length_splitKeepNl_endsNl h
  · rfl

theorem splitKeepNlAux_wf : ∀ (t acc : List Char), '\n' ∉ acc →
    endsWithNl t = true → ∀ l ∈ splitKeepNlAux t acc, IsNlLine l := by
  intro t
  induction t with
  | nil => intro acc _ ht; simp [endsWithNl] at ht
  | cons c rest ih =>
    intro acc hacc ht
    by_cases hc : c = '\n'
    · subst hc
      rw [splitKeepNlAux_cons_nl]
      intro l hl
      rcases List.mem_cons.mp hl with rfl | hl2
      · refine ⟨acc.reverse, rfl, ?_⟩
        simpa using hacc
      · by_cases hrest : rest = []
        · subst hrest
          simp [splitKeepNlAux_nil] at hl2
        · have ht2 : endsWithNl rest = true := by
            rw [← endsWithNl_cons_of_ne hrest]; exact ht
          exact ih [] (by simp) ht2 l hl2
    · have hrest : rest ≠ [] := by
        intro hr
        subst hr
        simp [endsWithNl, hc] at ht
      have ht2 : endsWithNl rest = true := by
        rw [← endsWithNl_cons_of_ne hrest]; exact ht
      rw [splitKeepNlAux_cons_ne hc]
      intro l hl
      refine ih (c :: acc) ?_ ht2 l hl
      intro hmem
      rcases List.mem_cons.mp hmem with h1 | h2
      · exact hc h1.symm
      · exact hacc h2

theorem splitKeepNl_wf {t : PyStr} (h : NlChunk t) : ∀ l ∈ splitKeepNl t, IsNlLine l := by
  rcases h with h | rfl
  · exact splitKeepNlAux_wf t [] (by simp) h
  · intro l hl
    simp [splitKeepNl, splitKeepNlAux_nil] at hl

theorem splitKeepNl_splice (ls : List PyStr) (p : Nat) (payload : List PyStr)
    (hwf : ∀ l ∈ ls, IsNlLine l) (hp : p ≤ ls.length)
    (hpl : ∀ e ∈ payload, NlChunk e) :
    splitKeepNl (joinText (splice ls p payload)) =
      ls.take p ++ splitKeepNl (joinText payload) ++ ls.drop p := by
  have hwfT : ∀ l ∈ ls.take p, IsNlLine l := fun l hl => hwf l (List.mem_of_mem_take hl)
  have hwfD : ∀ l ∈ ls.drop p, IsNlLine l := fun l hl => hwf l (List.mem_of_mem_drop hl)
  have hsp : splice ls p payload = ls.take p ++ (payload ++ ls.drop p) := by
    unfold splice
    rw [min_eq_left hp, List.append_assoc]
  rw [hsp, joinText_append, joinText_append]
  rw [splitKeepNl_append_chunk _ (joinText_chunks _ (fun l hl => (hwfT l hl).chunk))]
  rw [splitKeepNl_append_chunk _ (joinText_chunks _ hpl)]
  rw [splitKeepNl_join_wf _ hwfT, splitKeepNl_join_wf _ hwfD, List.append_assoc]

/-- Newline-terminated lines with exactly one newline are well-formed. -/
theorem isNlLine_of {l : PyStr} (h1 : endsWithNl l = true) (h2 : countNl l = 1) :
    IsNlLine l := by
  have hne : l ≠ [] := by
    intro hc
    rw [hc] at h1
    simp [endsWithNl] at h1
  have hlast : l.getLast hne = '\n' := by
    unfold endsWithNl at h1
    rw [List.getLast?_eq_getLast l hne] at h1
    simpa using h1
  have hsplit : l.dropLast ++ [l.getLast hne] = l := List.dropLast_concat_getLast hne
  have hl2 : l = l.dropLast ++ ['\n'] := by
    conv_lhs => rw [← hsplit]
    rw [hlast]
  refine ⟨l.dropLast, hl2, ?_⟩
  intro hmem
  have hc : countNl l.dropLast + 1 = 1 := by
    have hca := countNl_append l.dropLast ['\n']
    rw [← hl2, h2] at hca
    have h1' : countNl ['\n'] = 1 := by simp [countNl, List.countP_cons]
    rw [h1'] at hca
    omega
  have hz : countNl l.dropLast = 0 := by omega
  have := List.countP_eq_zero.mp hz _ hmem
  simp at this

/-- Auxiliary: a list of n newline characters is an acceptable chunk. -/
theorem endsWithNl_replicate (n : Nat) : NlChunk (List.replicate n nlChar) := by
  cases n with
  | zero => exact Or.inr rfl
  | succ m =>
    left
    rw [List.replicate_succ']
    exact endsWithNl_append_nl (List.replicate m nlChar)

/-- Auxiliary: a string on which the trailing-newline fix did not fire is an
acceptable chunk. -/
theorem chunk_of_nofix (res : PyStr) (h : ¬ ((!res.isEmpty && !endsWithNl res) = true)) :
    NlChunk res := by
  by_cases hb : res = []
  · exact Or.inr hb
  · left
    cases hew : endsWithNl res
    · exfalso
      apply h
      simp [hew, List.isEmpty_iff, hb]
    · rfl

theorem rstripWs_eq_nil_iff (t : PyStr) :
    rstripWs t = [] ↔ ∀ c ∈ t, pyIsSpace c = true := by
  unfold rstripWs
  constructor
  · intro h c hc
    have h2 : t.reverse.dropWhile pyIsSpace = [] := by
      have := congrArg List.reverse h
      simpa using this
    exact List.dropWhile_eq_nil_iff.mp h2 c (List.mem_reverse.mpr hc)
  · intro h
    have h2 : t.reverse.dropWhile pyIsSpace = [] :=
      List.dropWhile_eq_nil_iff.mpr (fun c hc => h c (List.mem_reverse.mp hc))
    rw [h2]
    rfl

theorem stripWs_ne_nil_of_mem {t : PyStr} {c : Char} (hc : c ∈ t)
    (hs : pyIsSpace c = false) : stripWs t ≠ [] := by
  intro h
  have hall : ∀ x ∈ lstripWs t, pyIsSpace x = true := (rstripWs_eq_nil_iff _).mp h
  have hct : pyIsSpace c = true := by
    have hsplit := List.takeWhile_append_dropWhile (p := pyIsSpace) (l := t)
    rw [← hsplit] at hc
    rcases List.mem_append.mp hc with h1 | h2
    · exact List.mem_takeWhile_imp h1
    · exact hall c h2
  rw [hct] at hs
  simp at hs

theorem stripWs_join_ne_nil {ls : List PyStr} {l : PyStr} {c : Char}
    (hl : l ∈ ls) (hc : c ∈ l) (hs : pyIsSpace c = false) :
    stripWs (joinText ls) ≠ [] :=
  stripWs_ne_nil_of_mem (by unfold joinText; exact List.mem_flatten.mpr ⟨l, hl, hc⟩) hs

/-- A line whose stripped form starts with def holds the non-whitespace
character d. -/
theorem defline_content {l : PyStr}
    (h : (s2l r"def ").isPrefixOf (lstripWs l) = true) :
    ∃ c ∈ l, pyIsSpace c = false := by
  have hd : 'd' ∈ lstripWs l := by
    cases hl : lstripWs l with
    | nil => rw [hl] at h; simp [s2l, List.isPrefixOf] at h
    | cons a r =>
      rw [hl] at h
      simp only [s2l] at h
      have ha : a = 'd' := by
        cases hx : (('d' : Char) == a) with
        | false => rw [List.isPrefixOf, hx] at h; simp at h
        | true => exact (beq_iff_eq.mp hx).symm
      rw [ha]
      exact List.mem_cons_self _ _
  exact ⟨'d', (List.dropWhile_sublist pyIsSpace).subset hd, by decide⟩

set_option maxHeartbeats 1000000 in
/-- The reindent result is empty or newline-terminated. -/
theorem reindent_chunk (s b : PyStr) : NlChunk (reindent s b) := by
  simp only [reindent]
  split_ifs <;>
    first
    | exact endsWithNl_replicate _
    | exact Or.inl (endsWithNl_append_nl _)
    | exact chunk_of_nofix _ (by assumption)

theorem exists_nonspace_of_stripWs {t : PyStr} (h : stripWs t ≠ []) :
    ∃ c ∈ t, pyIsSpace c = false := by
  by_contra hc
  push_neg at hc
  apply h
  have hall : ∀ c ∈ t, pyIsSpace c = true := by
    intro c hct
    cases hx : pyIsSpace c
    · exact absurd hx (hc c hct)
    · rfl
  unfold stripWs
  exact (rstripWs_eq_nil_iff _).mpr
    (fun c hcl => hall c ((List.dropWhile_sublist pyIsSpace).subset hcl))

/-- A blank-line separator followed by a reindent result is an acceptable
chunk (indeed newline-terminated). -/
theorem sep_reind_endsNl (s b : PyStr) : endsWithNl ([nlChar] ++ reindent s b) = true := by
  rcases reindent_chunk s b with h | h
  · rw [endsWithNl_append_right [nlChar] (by intro hc; rw [hc] at h; simp [endsWithNl] at h)]
    exact h
  · rw [h, List.append_nil]
    rfl

/-- The getD value at an in-range index is a member of the list. -/
theorem getD_mem_of_lt {α : Type} [Inhabited α] (l : List α) (i : Nat) (d : α)
    (h : i < l.length) : l.getD i d ∈ l := by
  rw [List.getD_eq_getElem?_getD, List.getElem?_eq_getElem h]
  exact List.getElem_mem h

/-- The getD value of an in-range index survives a take past it. -/
theorem getD_mem_take_of_lt {α : Type} [Inhabited α] (l : List α) (i n : Nat) (d : α)
    (hin : i < n) (h : i < l.length) : l.getD i d ∈ l.take n := by
  have hs : (l.take n)[i]? = some (l.getD i d) := by
    rw [List.getElem?_take_of_lt hin, List.getElem?_eq_getElem h,
      List.getD_eq_getElem?_getD, List.getElem?_eq_getElem h]
    rfl
  exact List.getElem?_mem hs

/-- Behaviour of the body phase of append_callable_body on a well-formed
state with a non-empty target body whose last line is non-blank and a
non-blank extracted body: the call succeeds and the resulting buffer is
exactly the original buffer with one blank line plus the re-indented
extracted body spliced directly after the target's last statement line. -/
theorem acb_body_phase_run (st2 : MergerState) (tgt2 : PyFunctionDef)
    (targetCls : Option PyStr) (targetName : PyStr) (snip : Snippet)
    (ls2 : PyStmt)
    (hwf2 : ∀ l ∈ st2.lines, IsNlLine l)
    (hb2 : tgt2.body.getLast? = some ls2)
    (hpos : 1 ≤ ls2.end_lineno)
    (hend : ls2.end_lineno ≤ st2.lines.length)
    (hprev : stripWs (st2.lines.getD (ls2.end_lineno - 1) []) ≠ [])
    (hne : (stripWs (joinText (acb_body_lines snip))).isEmpty = false) :
    (acb_body_phase st2 tgt2 targetCls targetName snip).2 = none ∧
    (acb_body_phase st2 tgt2 targetCls targetName snip).1.lines =
      st2.lines.take ls2.end_lineno
        ++ splitKeepNl ([nlChar]
            ++ reindent (joinText (acb_body_lines snip)) (bodyIndent st2.lines tgt2))
        ++ st2.lines.drop ls2.end_lineno := by
  have hfold : (match snip.node.body.head?, snip.node.body.getLast? with
      | some f0, some l0 =>
        ((splitKeepNl (dedentText snip.text)).drop (f0.lineno - 1)).take
          (l0.end_lineno - (f0.lineno - 1))
      | _, _ => ([] : List PyStr)) = acb_body_lines snip := rfl
  have hbidx : bodySpliceIdx tgt2 = ls2.end_lineno := by
    unfold bodySpliceIdx
    rw [hb2]
  have hidx : ls2.end_lineno - 1 < st2.lines.length := by omega
  have hc1 : decide (1 ≤ ls2.end_lineno) = true := decide_eq_true (by omega)
  have hc2 : decide (ls2.end_lineno - 1 < st2.lines.length) = true := decide_eq_true hidx
  have hpe : (stripWs (st2.lines.getD (ls2.end_lineno - 1) [])).isEmpty = false := by
    cases hx : (stripWs (st2.lines.getD (ls2.end_lineno - 1) [])).isEmpty
    · rfl
    · exact absurd (List.isEmpty_iff.mp hx) hprev
  have hmemprev : st2.lines.getD (ls2.end_lineno - 1) [] ∈ st2.lines :=
    getD_mem_of_lt _ _ _ hidx
  have hewn : endsWithNl (st2.lines.getD (ls2.end_lineno - 1) []) = true :=
    (hwf2 _ hmemprev).endsNl
  simp only [acb_body_phase, hfold, hne, Bool.false_eq_true, if_false, hbidx, hc1, hc2,
    Bool.and_self, if_true, hpe, hewn, Bool.not_true, Bool.true_and]
  -- the separator branch is now fixed: lines3 = st2.lines, sep = [nlChar]
  refine ⟨trivial, ?_⟩
  · have hchunks : ∀ l ∈ splice st2.lines ls2.end_lineno
        [[nlChar] ++ reindent (joinText (acb_body_lines snip)) (bodyIndent st2.lines tgt2)],
        NlChunk l := by
      intro l hl
      unfold splice at hl
      rcases List.mem_append.mp hl with h1 | h2
      · rcases List.mem_append.mp h1 with h3 | h4
        · exact (hwf2 l (List.mem_of_mem_take h3)).chunk
        · rcases List.mem_singleton.mp h4 with rfl
          exact Or.inl (sep_reind_endsNl _ _)
      · exact (hwf2 l (List.mem_of_mem_drop h2)).chunk
    have hcontent : stripWs (joinText (splice st2.lines ls2.end_lineno
        [[nlChar] ++ reindent (joinText (acb_body_lines snip)) (bodyIndent st2.lines tgt2)]))
        ≠ [] := by
      obtain ⟨c, hcm, hcs⟩ := exists_nonspace_of_stripWs hprev
      have hmem2 : st2.lines.getD (ls2.end_lineno - 1) [] ∈ splice st2.lines
          ls2.end_lineno
          [[nlChar] ++ reindent (joinText (acb_body_lines snip)) (bodyIndent st2.lines tgt2)] := by
        unfold splice
        refine List.mem_append.mpr (Or.inl (List.mem_append.mpr (Or.inl ?_)))
        rw [min_eq_left hend]
        exact getD_mem_take_of_lt _ _ _ _ (by omega) hidx
      exact stripWs_join_ne_nil hmem2 hcm hcs
    rw [applyRefresh_chunks _ _ hchunks hcontent]
    show splitKeepNl (joinText (splice st2.lines ls2.end_lineno _)) = _
    rw [splitKeepNl_splice st2.lines ls2.end_lineno _ hwf2 hend
      (fun e he => by
        rcases List.mem_singleton.mp he with rfl
        exact Or.inl (sep_reind_endsNl _ _))]
    have : joinText [[nlChar] ++ reindent (joinText (acb_body_lines snip))
        (bodyIndent st2.lines tgt2)] =
        [nlChar] ++ reindent (joinText (acb_body_lines snip)) (bodyIndent st2.lines tgt2) := by
      simp [joinText]
    rw [this]

/-- A decorator-free snippet with the same signature as f and one body
statement. -/
def exSnipGood : Snippet :=
  ⟨s2l r"def f(x):" ++ [nlChar] ++ s2l r"    return x + 1" ++ [nlChar],
   ⟨s2l r"f", ⟨[], [s2l r"x"], none, [], none⟩, 1, 2, [], [⟨2, 2⟩]⟩⟩

/-- C2 counterexample: at a concrete target and snippet the append
succeeds, yet the appended remainder after the pre-merge body is NOT the
re-indented new body alone (as the claim states): it is a blank separator
line followed by the re-indented new body. -/
theorem c2_counterexample :
    (append_callable_body exStF (s2l r"f") exSnipGood none).2 = none ∧
    joinText (((append_callable_body exStF (s2l r"f") exSnipGood none).1.lines).drop 1) ≠
      joinText ((exStF.lines.drop 1).take 1)
        ++ reindent (joinText (acb_body_lines exSnipGood)) (bodyIndent exStF.lines exFnF) ∧
    joinText (((append_callable_body exStF (s2l r"f") exSnipGood none).1.lines).drop 1) =
      joinText ((exStF.lines.drop 1).take 1)
        ++ ([nlChar]
          ++ reindent (joinText (acb_body_lines exSnipGood)) (bodyIndent exStF.lines exFnF)) := by
  decide

theorem decoRebuild_endsNl (indent seg : PyStr) :
    endsWithNl (decoRebuild indent seg) = true := by
  unfold decoRebuild
  exact endsWithNl_append_nl _

theorem decoPayload_endsNl (dedLines targetSet : List PyStr) (indent : PyStr) :
    ∀ ds, ∀ e ∈ decoPayload dedLines targetSet indent ds, endsWithNl e = true := by
  intro ds
  induction ds with
  | nil => intro e he; simp [decoPayload] at he
  | cons d rest ih =>
    intro e he
    simp only [decoPayload] at he
    split_ifs at he with h1 h2
    · exact ih e he
    · exact ih e he
    · rcases List.mem_cons.mp he with rfl | hm
      · exact decoRebuild_endsNl _ _
      · exact ih e hm

/-- The decorator payload is exactly the non-empty, not-yet-present
decorator segments of the new callable, in order, each rebuilt at the
target indentation. -/
theorem decoPayload_eq_filter_map (dedLines targetSet : List PyStr) (indent : PyStr) :
    ∀ ds : List PyDeco,
    decoPayload dedLines targetSet indent ds =
      ((ds.map (fun dn => segRange dedLines dn.lineno dn.end_lineno)).filter
        (fun seg => !seg.isEmpty && !targetSet.contains (stripWs seg))).map
        (decoRebuild indent) := by
  intro ds
  induction ds with
  | nil => rfl
  | cons d rest ih =>
    simp only [decoPayload, List.map_cons, List.filter_cons]
    cases h1 : (segRange dedLines d.lineno d.end_lineno).isEmpty with
    | true => simp [h1, ih]
    | false =>
      cases h2 : targetSet.contains (stripWs (segRange dedLines d.lineno d.end_lineno)) with
      | true => simp [h1, h2, ih]
      | false => simp [h1, h2, ih]

theorem getD_mem_drop {α : Type} [Inhabited α] (l : List α) (n : Nat) (d : α)
    (h : n < l.length) : l.getD n d ∈ l.drop n := by
  have hs : (l.drop n)[0]? = some (l.getD n d) := by
    rw [List.getElem?_drop, Nat.add_zero, List.getElem?_eq_getElem h,
      List.getD_eq_getElem?_getD, List.getElem?_eq_getElem h]
    rfl
  exact List.getElem?_mem hs

theorem getD_drop_eq {α : Type} [Inhabited α] (l : List α) (n m : Nat) (d : α) :
    (l.drop n).getD m d = l.getD (n + m) d := by
  rw [List.getD_eq_getElem?_getD, List.getD_eq_getElem?_getD, List.getElem?_drop]

/-- Access past the spliced block of a splice at dd reads the original
buffer, shifted back by the block length. -/
theorem getD_splice_high (l B : List PyStr) (dd kk i : Nat)
    (hdl : dd ≤ l.length) (hB : B.length = kk) (hi : dd + kk ≤ i) :
    (l.take dd ++ B ++ l.drop dd).getD i ([] : PyStr) = l.getD (i - kk) ([] : PyStr) := by
  have hA : (l.take dd).length = dd := by rw [List.length_take]; omega
  rw [List.append_assoc, List.getD_append_right _ _ _ _ (by rw [hA]; omega), hA,
    List.getD_append_right _ _ _ _ (by rw [hB]; omega), hB, getD_drop_eq]
  congr 1
  omega

/-- Running append_callable_body through the end of its decorator phase:
under target resolution, matching signatures, an in-range definition line
carrying a def keyword and a well-formed buffer, with a non-empty
decorator payload, the operation equals its body phase run on the state
whose buffer has the payload spliced at the definition-line index and on
the target node shifted past the insertion. -/
theorem acb_deco_run (st : MergerState) (targetCls : Option PyStr) (targetName : PyStr)
    (snip : Snippet) (tgt : PyFunctionDef)
    (hres : resolveTarget st targetCls targetName = .ok tgt)
    (hsig : (signatures_match snip.node.args tgt.args).1 = true)
    (hd : tgt.lineno - 1 < st.lines.length)
    (hdef : (s2l r"def ").isPrefixOf (lstripWs (st.lines.getD (tgt.lineno - 1) [])) = true)
    (hwfN : ∀ l ∈ st.lines, IsNlLine l)
    (hP : acb_deco_payload st tgt snip ≠ []) :
    ∃ im cm fm,
      append_callable_body st targetName snip targetCls =
        acb_body_phase
          ⟨st.lines.take (tgt.lineno - 1)
            ++ splitKeepNl (joinText (acb_deco_payload st tgt snip))
            ++ st.lines.drop (tgt.lineno - 1), im, cm, fm⟩
          { shiftFn (tgt.lineno - 1) (countNl (joinText (acb_deco_payload st tgt snip))) tgt with
            decorator_list := tgt.decorator_list
              ++ newDecoInfos (tgt.lineno - 1) (acb_deco_payload st tgt snip) }
          targetCls targetName snip := by
  have hdd : decide (tgt.lineno - 1 < st.lines.length) = true := decide_eq_true hd
  have hfold2 : decoPayload (splitKeepNl (dedentText snip.text))
      (tgt.decorator_list.map (fun dn =>
        stripWs (segRange (splitKeepNl (joinText st.lines)) dn.lineno dn.end_lineno)))
      (get_leading_whitespace (st.lines.getD (tgt.lineno - 1) []))
      snip.node.decorator_list = acb_deco_payload st tgt snip := rfl
  have hplb : (acb_deco_payload st tgt snip).isEmpty = false := by
    cases hx : (acb_deco_payload st tgt snip).isEmpty
    · rfl
    · exact absurd (List.isEmpty_iff.mp hx) hP
  simp only [append_callable_body, hres, hsig, hdd, hdef, Bool.true_or, Bool.not_true,
    Bool.false_eq_true, if_false, hfold2, hplb, if_true]
  have hchunks : ∀ l ∈ splice st.lines (tgt.lineno - 1) (acb_deco_payload st tgt snip),
      NlChunk l := by
    intro l hl
    unfold splice at hl
    rcases List.mem_append.mp hl with h1 | h2
    · rcases List.mem_append.mp h1 with h3 | h4
      · exact (hwfN l (List.mem_of_mem_take h3)).chunk
      · exact Or.inl (decoPayload_endsNl _ _ _ snip.node.decorator_list l h4)
    · exact (hwfN l (List.mem_of_mem_drop h2)).chunk
  have hcontent : stripWs (joinText (splice st.lines (tgt.lineno - 1)
      (acb_deco_payload st tgt snip))) ≠ [] := by
    obtain ⟨c, hcm, hcs⟩ := defline_content hdef
    have hmem2 : st.lines.getD (tgt.lineno - 1) [] ∈ splice st.lines (tgt.lineno - 1)
        (acb_deco_payload st tgt snip) := by
      unfold splice
      refine List.mem_append.mpr (Or.inr ?_)
      rw [min_eq_left (le_of_lt hd)]
      exact getD_mem_drop _ _ _ hd
    exact stripWs_join_ne_nil hmem2 hcm hcs
  rw [applyRefresh_chunks _ _ hchunks hcontent,
    splitKeepNl_splice st.lines (tgt.lineno - 1) (acb_deco_payload st tgt snip)
      hwfN (le_of_lt hd)
      (fun e he => Or.inl (decoPayload_endsNl _ _ _ snip.node.decorator_list e he))]
  exact ⟨_, _, _, rfl⟩

/-- C2 (amended): for a successful append_callable_body call with a
non-blank extracted body, on a well-formed buffer whose resolved target
has a non-empty, indented body whose last line is non-blank: the call
succeeds; the buffer becomes the original lines up to the definition
line, then any newly inserted decorator lines, then the original lines
from the definition line through the target's last body line unchanged,
then the spliced separator-plus-reindented-body chunk, then the untouched
tail; consequently the text from the target's first body line onward
(that line index shifted down by the inserted decorator lines) equals the
pre-merge body text byte-for-byte, followed by a blank-line separator,
the new callable's statement range dedented and re-indented to the target
body's indentation, and the unchanged tail.  Decorated new callables are
covered: their decorators land above the definition line and leave the
body region intact.  The appended remainder carries the separator newline
in front of the re-indented body, in deviation from the claim as
stated. -/
theorem c2_append_body_amended
    (st : MergerState) (targetCls : Option PyStr) (targetName : PyStr)
    (snip : Snippet) (tgt : PyFunctionDef) (fs ls : PyStmt)
    (hres : resolveTarget st targetCls targetName = .ok tgt)
    (hsig : (signatures_match snip.node.args tgt.args).1 = true)
    (hd : tgt.lineno - 1 < st.lines.length)
    (hdef : (s2l r"def ").isPrefixOf (lstripWs (st.lines.getD (tgt.lineno - 1) [])) = true)
    (hwf : ∀ l ∈ st.lines, endsWithNl l = true ∧ countNl l = 1)
    (hln1 : 1 ≤ tgt.lineno)
    (hb1 : tgt.body.head? = some fs) (hb2 : tgt.body.getLast? = some ls)
    (hfd : tgt.lineno ≤ fs.lineno) (hfs : fs.lineno ≤ ls.end_lineno)
    (hend : ls.end_lineno ≤ st.lines.length)
    (hprev : stripWs (st.lines.getD (ls.end_lineno - 1) []) ≠ [])
    (hne : (stripWs (joinText (acb_body_lines snip))).isEmpty = false)
    (hbne : (get_leading_whitespace (st.lines.getD (fs.lineno - 1) [])).isEmpty = false) :
    (append_callable_body st targetName snip targetCls).2 = none ∧
    (append_callable_body st targetName snip targetCls).1.lines =
      st.lines.take (tgt.lineno - 1)
        ++ splitKeepNl (joinText (acb_deco_payload st tgt snip))
        ++ (st.lines.drop (tgt.lineno - 1)).take (ls.end_lineno - (tgt.lineno - 1))
        ++ splitKeepNl ([nlChar]
            ++ reindent (joinText (acb_body_lines snip)) (bodyIndent st.lines tgt))
        ++ st.lines.drop ls.end_lineno ∧
    joinText (((append_callable_body st targetName snip targetCls).1.lines).drop
        ((fs.lineno - 1) + countNl (joinText (acb_deco_payload st tgt snip)))) =
      joinText ((st.lines.drop (fs.lineno - 1)).take (ls.end_lineno - (fs.lineno - 1)))
        ++ ([nlChar] ++ reindent (joinText (acb_body_lines snip)) (bodyIndent st.lines tgt))
        ++ joinText (st.lines.drop ls.end_lineno) := by
  have hwfN : ∀ l ∈ st.lines, IsNlLine l :=
    fun l hl => isNlLine_of (hwf l hl).1 (hwf l hl).2
  have hdd : decide (tgt.lineno - 1 < st.lines.length) = true := decide_eq_true hd
  have hfold2 : decoPayload (splitKeepNl (dedentText snip.text))
      (tgt.decorator_list.map (fun dn =>
        stripWs (segRange (splitKeepNl (joinText st.lines)) dn.lineno dn.end_lineno)))
      (get_leading_whitespace (st.lines.getD (tgt.lineno - 1) []))
      snip.node.decorator_list = acb_deco_payload st tgt snip := rfl
  by_cases hP : acb_deco_payload st tgt snip = []
  · have hred : append_callable_body st targetName snip targetCls =
        acb_body_phase st tgt targetCls targetName snip := by
      simp only [append_callable_body, hres, hsig, hdd, hdef, Bool.true_or, Bool.not_true,
        Bool.false_eq_true, if_false, hfold2, hP, List.isEmpty_nil, if_true]
    have hphase := acb_body_phase_run st tgt targetCls targetName snip ls hwfN hb2
      (by omega) hend hprev hne
    have hk0 : countNl (joinText (acb_deco_payload st tgt snip)) = 0 := by rw [hP]; rfl
    have hsplit0 : splitKeepNl (joinText (acb_deco_payload st tgt snip)) = [] := by
      rw [hP]; rfl
    have htake : st.lines.take ls.end_lineno =
        st.lines.take (tgt.lineno - 1)
          ++ (st.lines.drop (tgt.lineno - 1)).take (ls.end_lineno - (tgt.lineno - 1)) := by
      have h1 : ls.end_lineno = (tgt.lineno - 1) + (ls.end_lineno - (tgt.lineno - 1)) := by
        omega
      conv_lhs => rw [h1]
      rw [List.take_add]
    refine ⟨by rw [hred]; exact hphase.1, ?_, ?_⟩
    · rw [hred, hphase.2, hsplit0, htake]
      simp [List.append_assoc]
    · rw [hred, hphase.2, hk0, Nat.add_zero]
      have hlen : (st.lines.take ls.end_lineno).length = ls.end_lineno := by
        rw [List.length_take]; omega
      rw [List.append_assoc, List.drop_append_of_le_length (by rw [hlen]; omega),
        List.drop_take, joinText_append, joinText_append, joinText_splitKeepNl]
      simp [List.append_assoc]
  · obtain ⟨im, cm, fm, heq⟩ := acb_deco_run st targetCls targetName snip tgt hres hsig hd
      hdef hwfN hP
    set d := tgt.lineno - 1 with hddef
    set k := countNl (joinText (acb_deco_payload st tgt snip)) with hkdef
    set B := splitKeepNl (joinText (acb_deco_payload st tgt snip)) with hBdef
    set TGTU := { shiftFn d k tgt with
      decorator_list := tgt.decorator_list ++ newDecoInfos d (acb_deco_payload st tgt snip) }
      with hT
    set S := st.lines.take d ++ B ++ st.lines.drop d with hS
    have hchP : ∀ e ∈ acb_deco_payload st tgt snip, NlChunk e :=
      fun e he => Or.inl (decoPayload_endsNl _ _ _ snip.node.decorator_list e he)
    have hBch : NlChunk (joinText (acb_deco_payload st tgt snip)) := joinText_chunks _ hchP
    have hkB : B.length = k := by rw [hBdef, hkdef]; exact length_splitKeepNl_chunk hBch
    have hwfS : ∀ l ∈ S, IsNlLine l := by
      intro l hl
      rw [hS] at hl
      rcases List.mem_append.mp hl with h1 | h2
      · rcases List.mem_append.mp h1 with h3 | h4
        · exact hwfN l (List.mem_of_mem_take h3)
        · rw [hBdef] at h4
          exact splitKeepNl_wf hBch l h4
      · exact hwfN l (List.mem_of_mem_drop h2)
    have hlenS : S.length = st.lines.length + k := by
      rw [hS]
      simp only [List.length_append, List.length_take, List.length_drop, hkB]
      omega
    have hshifte : (shiftStmt d k ls).end_lineno = ls.end_lineno + k := by
      show shiftLn d k ls.end_lineno = ls.end_lineno + k
      unfold shiftLn
      rw [if_pos (by omega)]
    have htb2 : TGTU.body.getLast? = some (shiftStmt d k ls) := by
      rw [hT]
      show ((shiftFn d k tgt).body).getLast? = _
      simp [shiftFn, List.getLast?_map, hb2]
    have hth : TGTU.body.head? = some (shiftStmt d k fs) := by
      rw [hT]
      show ((shiftFn d k tgt).body).head? = _
      simp [shiftFn, List.head?_map, hb1]
    have hSprev : stripWs (S.getD (ls.end_lineno + k - 1) []) ≠ [] := by
      rw [hS, getD_splice_high st.lines B d k (ls.end_lineno + k - 1) (by omega) hkB (by omega)]
      have e1 : ls.end_lineno + k - 1 - k = ls.end_lineno - 1 := by omega
      rw [e1]
      exact hprev
    have hphase := acb_body_phase_run ⟨S, im, cm, fm⟩ TGTU targetCls targetName snip
      (shiftStmt d k ls) hwfS htb2 (by rw [hshifte]; omega)
      (by rw [hshifte]; show ls.end_lineno + k ≤ S.length; rw [hlenS]; omega)
      (by rw [hshifte]; exact hSprev) hne
    have hfi : fs.lineno - 1 < st.lines.length := by omega
    have hshiftf : (shiftStmt d k fs).lineno = fs.lineno + k := by
      show shiftLn d k fs.lineno = fs.lineno + k
      unfold shiftLn
      rw [if_pos (by omega)]
    have hSfi : S.getD (fs.lineno + k - 1) [] = st.lines.getD (fs.lineno - 1) [] := by
      rw [hS, getD_splice_high st.lines B d k (fs.lineno + k - 1) (by omega) hkB (by omega)]
      congr 1
      omega
    have hfiS : fs.lineno + k - 1 < S.length := by rw [hlenS]; omega
    have hbi1 : bodyIndent st.lines tgt =
        get_leading_whitespace (st.lines.getD (fs.lineno - 1) []) := by
      simp only [bodyIndent, hb1]
      rw [if_pos hfi]
      simp only [hbne, Bool.false_and, Bool.false_eq_true, if_false]
    have hbi2 : bodyIndent S TGTU =
        get_leading_whitespace (st.lines.getD (fs.lineno - 1) []) := by
      simp only [bodyIndent, hth]
      rw [hshiftf, hSfi, if_pos hfiS]
      simp only [hbne, Bool.false_and, Bool.false_eq_true, if_false]
    have hproj : (MergerState.mk S im cm fm).lines = S := rfl
    have hABl : (st.lines.take d ++ B).length = d + k := by
      rw [List.length_append, List.length_take, min_eq_left (le_of_lt hd), hkB]
    have htk : S.take (ls.end_lineno + k) =
        st.lines.take d ++ B ++ (st.lines.drop d).take (ls.end_lineno - d) := by
      rw [hS]
      have e : ls.end_lineno + k = (st.lines.take d ++ B).length + (ls.end_lineno - d) := by
        rw [hABl]; omega
      rw [e, List.take_append]
    have hdr : S.drop (ls.end_lineno + k) = st.lines.drop ls.end_lineno := by
      rw [hS]
      have e : ls.end_lineno + k = (st.lines.take d ++ B).length + (ls.end_lineno - d) := by
        rw [hABl]; omega
      rw [e, List.drop_append, List.drop_drop]
      congr 1
      omega
    refine ⟨?_, ?_, ?_⟩
    · rw [heq]
      exact hphase.1
    · rw [heq, hphase.2]
      simp only [hproj]
      rw [hshifte, htk, hdr, hbi2, ← hbi1]
    · rw [heq, hphase.2]
      simp only [hproj]
      rw [hshifte, hdr, hbi2, ← hbi1]
      have hlen2 : (S.take (ls.end_lineno + k)).length = ls.end_lineno + k := by
        rw [List.length_take, min_eq_left (by rw [hlenS]; omega)]
      rw [List.append_assoc, List.drop_append_of_le_length (by rw [hlen2]; omega),
        List.drop_take]
      have e2 : ls.end_lineno + k - ((fs.lineno - 1) + k) = ls.end_lineno - (fs.lineno - 1) := by
        omega
      rw [e2]
      have hdrj : S.drop ((fs.lineno - 1) + k) = st.lines.drop (fs.lineno - 1) := by
        rw [hS]
        have e3 : (fs.lineno - 1) + k = (st.lines.take d ++ B).length + (fs.lineno - 1 - d) := by
          rw [hABl]; omega
        rw [e3, List.drop_append, List.drop_drop]
        congr 1
        omega
      rw [hdrj, joinText_append, joinText_append, joinText_splitKeepNl]
      simp [List.append_assoc]

/-- A decorated one-function target: an own decorator on line 1, the def
keyword on line 2. -/
def exFnDeco : PyFunctionDef :=
  ⟨s2l r"f", ⟨[], [], none, [], none⟩, 2, 3, [⟨1, 1⟩], [⟨3, 3⟩]⟩

/-- Concrete Merger state holding the decorated function f. -/
def exStDeco : MergerState :=
  ⟨[s2l r"@dec1" ++ [nlChar], s2l r"def f():" ++ [nlChar], s2l r"    pass" ++ [nlChar]],
   [], [], [(s2l r"f", exFnDeco)]⟩

/-- A snippet for f carrying a decorator not present on the target. -/
def exSnipDeco : Snippet :=
  ⟨s2l r"@dec2" ++ [nlChar] ++ s2l r"def f():" ++ [nlChar] ++ s2l r"    pass" ++ [nlChar],
   ⟨s2l r"f", ⟨[], [], none, [], none⟩, 2, 3, [⟨1, 1⟩], [⟨3, 3⟩]⟩⟩

/-- Witness for C2 at a concrete decorated target and snippet: the new
decorator lands above the definition line and the appended body remainder
carries the separator. -/
theorem c2_append_body_amended_witness :
    resolveTarget exStDeco none (s2l r"f") = .ok exFnDeco ∧
    ((append_callable_body exStDeco (s2l r"f") exSnipDeco none).2 = none ∧
    (append_callable_body exStDeco (s2l r"f") exSnipDeco none).1.lines =
      exStDeco.lines.take 1
        ++ splitKeepNl (joinText (acb_deco_payload exStDeco exFnDeco exSnipDeco))
        ++ (exStDeco.lines.drop 1).take 2
        ++ splitKeepNl ([nlChar]
            ++ reindent (joinText (acb_body_lines exSnipDeco))
              (bodyIndent exStDeco.lines exFnDeco))
        ++ exStDeco.lines.drop 3 ∧
    joinText (((append_callable_body exStDeco (s2l r"f") exSnipDeco none).1.lines).drop
        (2 + countNl (joinText (acb_deco_payload exStDeco exFnDeco exSnipDeco)))) =
      joinText ((exStDeco.lines.drop 2).take 1)
        ++ ([nlChar] ++ reindent (joinText (acb_body_lines exSnipDeco))
            (bodyIndent exStDeco.lines exFnDeco))
        ++ joinText (exStDeco.lines.drop 3)) :=
  ⟨rfl, c2_append_body_amended exStDeco none (s2l r"f") exSnipDeco exFnDeco ⟨3, 3⟩ ⟨3, 3⟩
    rfl (by decide) (by decide) (by decide) (by decide) (by decide) (by decide) (by decide)
    (by decide) (by decide) (by decide) (by decide) (by decide) (by decide)⟩

/-- C7 (amended): under resolution of the target, matching signatures, an
in-range definition line carrying a def keyword, and a well-formed buffer:
the decorator payload of append_callable_body consists exactly of those
decorator segments of the new callable that are non-empty and whose
whitespace-trimmed text is not already among the whitespace-trimmed target
decorators, in order, each rebuilt at the target indentation; and when that
payload is non-empty, the operation continues into its body phase on a
buffer in which the payload is inserted at the 0-based index of the
target's DEFINITION line (tgt.lineno - 1), with every earlier line — in
particular all of the target's own decorator lines, which sit above the
definition line — preserved unchanged above the insertion.  The insertion
point is the definition line even when the target has decorators of its
own, in deviation from the claim as stated. -/
theorem c7_decorator_insertion
    (st : MergerState) (targetCls : Option PyStr) (targetName : PyStr)
    (snip : Snippet) (tgt : PyFunctionDef)
    (hres : resolveTarget st targetCls targetName = .ok tgt)
    (hsig : (signatures_match snip.node.args tgt.args).1 = true)
    (hd : tgt.lineno - 1 < st.lines.length)
    (hdef : (s2l r"def ").isPrefixOf (lstripWs (st.lines.getD (tgt.lineno - 1) [])) = true)
    (hwf : ∀ l ∈ st.lines, endsWithNl l = true ∧ countNl l = 1)
    (hpl : acb_deco_payload st tgt snip ≠ []) :
    acb_deco_payload st tgt snip =
      ((snip.node.decorator_list.map (fun dn =>
          segRange (splitKeepNl (dedentText snip.text)) dn.lineno dn.end_lineno)).filter
        (fun seg => !seg.isEmpty
          && !(tgt.decorator_list.map (fun dn =>
              stripWs (segRange (splitKeepNl (joinText st.lines)) dn.lineno
                dn.end_lineno))).contains (stripWs seg))).map
        (decoRebuild (get_leading_whitespace (st.lines.getD (tgt.lineno - 1) []))) ∧
    ∃ st2 tgt2,
      append_callable_body st targetName snip targetCls =
        acb_body_phase st2 tgt2 targetCls targetName snip ∧
      st2.lines = st.lines.take (tgt.lineno - 1)
        ++ splitKeepNl (joinText (acb_deco_payload st tgt snip))
        ++ st.lines.drop (tgt.lineno - 1) := by
  refine ⟨decoPayload_eq_filter_map _ _ _ _, ?_⟩
  have hwfN : ∀ l ∈ st.lines, IsNlLine l :=
    fun l hl => isNlLine_of (hwf l hl).1 (hwf l hl).2
  have hdd : decide (tgt.lineno - 1 < st.lines.length) = true := decide_eq_true hd
  have hfold2 : decoPayload (splitKeepNl (dedentText snip.text))
      (tgt.decorator_list.map (fun dn =>
        stripWs (segRange (splitKeepNl (joinText st.lines)) dn.lineno dn.end_lineno)))
      (get_leading_whitespace (st.lines.getD (tgt.lineno - 1) []))
      snip.node.decorator_list = acb_deco_payload st tgt snip := rfl
  have hplb : (acb_deco_payload st tgt snip).isEmpty = false := by
    cases hx : (acb_deco_payload st tgt snip).isEmpty
    · rfl
    · exact absurd (List.isEmpty_iff.mp hx) hpl
  simp only [append_callable_body, hres, hsig, hdd, hdef, Bool.true_or, Bool.not_true,
    Bool.false_eq_true, if_false, hfold2, hplb, if_true]
  refine ⟨_, _, rfl, ?_⟩
  have hchunks : ∀ l ∈ splice st.lines (tgt.lineno - 1) (acb_deco_payload st tgt snip),
      NlChunk l := by
    intro l hl
    unfold splice at hl
    rcases List.mem_append.mp hl with h1 | h2
    · rcases List.mem_append.mp h1 with h3 | h4
      · exact (hwfN l (List.mem_of_mem_take h3)).chunk
      · exact Or.inl (decoPayload_endsNl _ _ _ snip.node.decorator_list l h4)
    · exact (hwfN l (List.mem_of_mem_drop h2)).chunk
  have hcontent : stripWs (joinText (splice st.lines (tgt.lineno - 1)
      (acb_deco_payload st tgt snip))) ≠ [] := by
    obtain ⟨c, hcm, hcs⟩ := defline_content hdef
    have hmem2 : st.lines.getD (tgt.lineno - 1) [] ∈ splice st.lines (tgt.lineno - 1)
        (acb_deco_payload st tgt snip) := by
      unfold splice
      refine List.mem_append.mpr (Or.inr ?_)
      rw [min_eq_left (le_of_lt hd)]
      exact getD_mem_drop _ _ _ hd
    exact stripWs_join_ne_nil hmem2 hcm hcs
  rw [applyRefresh_chunks _ _ hchunks hcontent]
  show splitKeepNl (joinText (splice st.lines (tgt.lineno - 1) _)) = _
  rw [splitKeepNl_splice st.lines (tgt.lineno - 1) (acb_deco_payload st tgt snip)
    hwfN (le_of_lt hd)
    (fun e he => Or.inl (decoPayload_endsNl _ _ _ snip.node.decorator_list e he))]

/-- C7 counterexample: at a concrete decorated target the append succeeds
and the new decorator line lands at index 1, the target definition line's
original index, BELOW the target's own decorator at index 0 — not at index
0, the original line index of the target's first decorator, as the claim
states. -/
theorem c7_counterexample :
    (append_callable_body exStDeco (s2l r"f") exSnipDeco none).2 = none ∧
    (append_callable_body exStDeco (s2l r"f") exSnipDeco none).1.lines =
      [s2l r"@dec1" ++ [nlChar], s2l r"@dec2" ++ [nlChar], s2l r"def f():" ++ [nlChar],
       s2l r"    pass" ++ [nlChar], [nlChar], s2l r"    pass" ++ [nlChar]] ∧
    (append_callable_body exStDeco (s2l r"f") exSnipDeco none).1.lines[0]? ≠
      some (s2l r"@dec2" ++ [nlChar]) ∧
    (append_callable_body exStDeco (s2l r"f") exSnipDeco none).1.lines[1]? =
      some (s2l r"@dec2" ++ [nlChar]) := by
  decide

/-- Witness for C7 at a concrete decorated target and snippet. -/
theorem c7_decorator_insertion_witness :
    resolveTarget exStDeco none (s2l r"f") = .ok exFnDeco ∧
    (acb_deco_payload exStDeco exFnDeco exSnipDeco =
      ((exSnipDeco.node.decorator_list.map (fun dn =>
          segRange (splitKeepNl (dedentText exSnipDeco.text)) dn.lineno dn.end_lineno)).filter
        (fun seg => !seg.isEmpty
          && !(exFnDeco.decorator_list.map (fun dn =>
              stripWs (segRange (splitKeepNl (joinText exStDeco.lines)) dn.lineno
                dn.end_lineno))).contains (stripWs seg))).map
        (decoRebuild (get_leading_whitespace (exStDeco.lines.getD (exFnDeco.lineno - 1) []))) ∧
    ∃ st2 tgt2,
      append_callable_body exStDeco (s2l r"f") exSnipDeco none =
        acb_body_phase st2 tgt2 none (s2l r"f") exSnipDeco ∧
      st2.lines = exStDeco.lines.take (exFnDeco.lineno - 1)
        ++ splitKeepNl (joinText (acb_deco_payload exStDeco exFnDeco exSnipDeco))
        ++ exStDeco.lines.drop (exFnDeco.lineno - 1)) :=
  ⟨rfl, c7_decorator_insertion exStDeco none (s2l r"f") exSnipDeco exFnDeco rfl (by decide)
    (by decide) (by decide) (by decide) (by decide)⟩

end MergeSpec
